import Mathlib

/-!
Verification of the nanogrip concurrency/orchestration core against its
specification.  The Go source is shallowly embedded: pure functions become
Lean functions, stateful code becomes explicit state passing, Go loops become
fuel-indexed recursions, and the nondeterminism of a Go `select` statement
becomes the list of outcomes the statement may produce.  Machine integers are
modelled as `Int`/`Nat` (no overflow is relevant to the claims below), and
fallible code returns `Except`/`Option`.
-/

set_option maxHeartbeats 1000000

/-- Outcome of running a piece of Go code that may panic (for example a failed
interface type assertion or closing an already-closed channel). -/
inductive GoOutcome (α : Type) where
  | ok (val : α)
  | panicked
deriving DecidableEq, Repr

/-- A JSON value, the model of Go's dynamically typed `interface\x7b\x7d` as it
is produced by `encoding/json` (numbers are modelled as integers; no claim
involves fractional values). -/
inductive JValue where
  | null
  | bool (b : Bool)
  | num (n : Int)
  | str (s : String)
  | arr (elems : List JValue)
  | obj (fields : List (String × JValue))
deriving BEq, Repr

/-- Field lookup in a decoded JSON object, i.e. `data["k"]` on a Go map. -/
def jGet (fields : List (String × JValue)) (k : String) : Option JValue :=
  (fields.find? (fun p => p.1 == k)).map (fun p => p.2)

/-- A single-quote character, used to reproduce the literal error strings of
the Go source. -/
def squo : String := String.singleton (Char.ofNat 39)

/- ===================== Message bus (internal/heartbeat/heartbeat.go) ===================== -/

/-- `bus.Message`: the shared envelope carried by inbound messages. -/
structure BusMessage where
  id : String := ""
  channel : String := ""
  senderID : String := ""
  chatID : String := ""
  content : String := ""
  media : List String := []
  metadata : List (String × String) := []
  timestamp : Int := 0
  sessionKey : String := ""
deriving DecidableEq, Repr

/-- `bus.InboundMessage` embeds `Message` and adds nothing. -/
abbrev InboundMessage := BusMessage

/-- `bus.OutboundMessage`. -/
structure OutboundMessage where
  channel : String := ""
  chatID : String := ""
  content : String := ""
  media : List String := []
  metadata : List (String × String) := []
deriving DecidableEq, Repr

/-- The state of a `bus.MessageBus`: the two bounded queues (Go buffered
channels), the buffer size they were created with, whether `cancel()` has been
called on the bus context, and whether `close()` has been executed on the two
Go channels (the final step of `MessageBus.Close`). -/
structure MessageBus where
  bufferSize : Nat
  inbound : List InboundMessage
  outbound : List OutboundMessage
  cancelled : Bool
  chansClosed : Bool
deriving DecidableEq, Repr

/-- `bus.New(bufferSize)`: fresh bus with two empty queues. -/
def busNew (bufferSize : Nat) : MessageBus :=
  { bufferSize := bufferSize, inbound := [], outbound := [],
    cancelled := false, chansClosed := false }

/-- Result of a publish call: `nil`, `ErrBusFull`, the bus context's error, or
a Go panic (send on a closed channel). -/
inductive PubResult where
  | ok
  | busFull
  | ctxErr
  | panicked
deriving DecidableEq, Repr

/-- The possible outcomes of the `case b.inbound <- msg` arm of the select in
`PublishInbound`: ready when the buffer has room or the channel is closed
(in which case the send panics). -/
def sendCaseInbound (b : MessageBus) (m : InboundMessage) :
    List (PubResult × MessageBus) :=
  if b.chansClosed then [(.panicked, b)]
  else if b.inbound.length < b.bufferSize then
    [(.ok, { b with inbound := b.inbound ++ [m] })]
  else []

/-- The possible outcomes of the `case b.outbound <- msg` arm of the select in
`PublishOutbound`. -/
def sendCaseOutbound (b : MessageBus) (m : OutboundMessage) :
    List (PubResult × MessageBus) :=
  if b.chansClosed then [(.panicked, b)]
  else if b.outbound.length < b.bufferSize then
    [(.ok, { b with outbound := b.outbound ++ [m] })]
  else []

/-- The `case <-b.ctx.Done()` arm: ready once the bus context is cancelled. -/
def doneCase (b : MessageBus) : List (PubResult × MessageBus) :=
  if b.cancelled then [(.ctxErr, b)] else []

/-- `MessageBus.PublishInbound`: a three-armed non-blocking select.  The
result list enumerates every outcome Go may choose; when no arm is ready the
`default` arm returns `ErrBusFull`. -/
def publishInbound (b : MessageBus) (m : InboundMessage) :
    List (PubResult × MessageBus) :=
  let ready := sendCaseInbound b m ++ doneCase b
  if ready.isEmpty then [(.busFull, b)] else ready

/-- `MessageBus.PublishOutbound`, same shape as `PublishInbound`. -/
def publishOutbound (b : MessageBus) (m : OutboundMessage) :
    List (PubResult × MessageBus) :=
  let ready := sendCaseOutbound b m ++ doneCase b
  if ready.isEmpty then [(.busFull, b)] else ready

/-- Result of a consume call: a message, or the caller context's error. -/
inductive ConsumeResult (α : Type) where
  | got (m : α)
  | ctxErr
deriving DecidableEq, Repr

/-- `MessageBus.ConsumeInbound`: blocking two-armed select.  `callerDone`
models the caller's context being cancelled.  An empty result list means the
call blocks.  Receiving from a closed empty channel yields the zero value. -/
def consumeInbound (b : MessageBus) (callerDone : Bool) :
    List (ConsumeResult InboundMessage × MessageBus) :=
  (match b.inbound with
   | m :: rest => [(.got m, { b with inbound := rest })]
   | [] => if b.chansClosed then [(.got {}, b)] else [])
  ++ (if callerDone then [(.ctxErr, b)] else [])

/-- `MessageBus.ConsumeOutbound`, same shape as `ConsumeInbound`. -/
def consumeOutbound (b : MessageBus) (callerDone : Bool) :
    List (ConsumeResult OutboundMessage × MessageBus) :=
  (match b.outbound with
   | m :: rest => [(.got m, { b with outbound := rest })]
   | [] => if b.chansClosed then [(.got {}, b)] else [])
  ++ (if callerDone then [(.ctxErr, b)] else [])

/-- `MessageBus.Close`: `b.cancel()`, `b.wg.Wait()`, then `close(b.inbound)`
and `close(b.outbound)`.  Closing an already-closed Go channel panics. -/
def closeBus (b : MessageBus) : GoOutcome MessageBus :=
  let b1 := { b with cancelled := true }
  if b1.chansClosed then .panicked
  else .ok { b1 with chansClosed := true }

/-- One step of a history of bus operations: a publish (with one of the
outcomes the select may choose), a consume, or the cancellation signal from a
shutdown in progress. -/
inductive BusStep : MessageBus → MessageBus → Prop where
  | pubIn {b b' : MessageBus} (m : InboundMessage) (r : PubResult)
      (h : (r, b') ∈ publishInbound b m) : BusStep b b'
  | pubOut {b b' : MessageBus} (m : OutboundMessage) (r : PubResult)
      (h : (r, b') ∈ publishOutbound b m) : BusStep b b'
  | consIn {b b' : MessageBus} (cd : Bool) (r : ConsumeResult InboundMessage)
      (h : (r, b') ∈ consumeInbound b cd) : BusStep b b'
  | consOut {b b' : MessageBus} (cd : Bool) (r : ConsumeResult OutboundMessage)
      (h : (r, b') ∈ consumeOutbound b cd) : BusStep b b'
  | cancelCtx {b : MessageBus} : BusStep b { b with cancelled := true }

/-- Bus states reachable from `busNew n` by publishes, consumes and the
cancellation signal. -/
inductive BusReachable (n : Nat) : MessageBus → Prop where
  | init : BusReachable n (busNew n)
  | step {b b' : MessageBus} : BusReachable n b → BusStep b b' → BusReachable n b'

/- ===================== Tool registry (internal/tools/registry.go) ===================== -/

/-- Go tool parameter maps (`map[string]interface\x7b\x7d`). -/
abbrev Params := List (String × JValue)

/-- A registered tool: its name, its parameter validator and its executor
(which returns a textual result or a typed error). -/
structure Tool where
  name : String
  validateParams : Params → List String
  execute : Params → Except String String

/-- Lookup in the registry's name-to-tool map (`r.tools[name]`). -/
def lookupTool (r : List Tool) (name : String) : Option Tool :=
  r.find? (fun t => t.name == name)

/-- The `%v` rendering of a Go string slice, used in the invalid-parameter
message. -/
def goSliceText (errs : List String) : String :=
  "[" ++ String.intercalate " " errs ++ "]"

/-- `fmt.Sprintf("Error: Tool '%s' not found", name)`. -/
def toolNotFoundMsg (name : String) : String :=
  "Error: Tool " ++ squo ++ name ++ squo ++ " not found"

/-- `fmt.Sprintf("Error: Invalid parameters for tool '%s': %v", name, errors)`. -/
def invalidParamsMsg (name : String) (errs : List String) : String :=
  "Error: Invalid parameters for tool " ++ squo ++ name ++ squo ++ ": " ++ goSliceText errs

/-- `fmt.Sprintf("Error executing %s: %v", name, err)`. -/
def execErrorMsg (name : String) (e : String) : String :=
  "Error executing " ++ name ++ ": " ++ e

/-- `ToolRegistry.Execute`: look the tool up, validate the parameters, run the
executor; every failure is rendered as a textual result. -/
def registryExecute (r : List Tool) (name : String) (params : Params) : String :=
  match lookupTool r name with
  | none => toolNotFoundMsg name
  | some tool =>
    let errs := tool.validateParams params
    if errs.length > 0 then invalidParamsMsg name errs
    else
      match tool.execute params with
      | .error e => execErrorMsg name e
      | .ok result => result

/-- Replace the executor of the named tool, leaving everything else in the
registry unchanged.  Used to state that a result does not depend on the
executor. -/
def swapExec (r : List Tool) (name : String) (g : Params → Except String String) :
    List Tool :=
  r.map (fun t => if t.name == name then { t with execute := g } else t)

/- ===================== Session store (internal/session/session.go) ===================== -/

/-- `session.FunctionCall`. -/
structure FunctionCall where
  name : String := ""
  arguments : String := ""
deriving DecidableEq, Repr

/-- `session.ToolCall`. -/
structure SessToolCall where
  id : String := ""
  type : String := ""
  function : FunctionCall := {}
deriving DecidableEq, Repr

/-- `session.Message`: one entry of a conversation log. -/
structure SessMessage where
  role : String := ""
  content : String := ""
  timestamp : String := ""
  toolCalls : List SessToolCall := []
  toolCallID : String := ""
  name : String := ""
deriving DecidableEq, Repr

/-- `session.Session` (the mutex is not part of the functional state). -/
structure Session where
  key : String := ""
  messages : List SessMessage := []
  createdAt : Int := 0
  updatedAt : Int := 0
  metadata : Params := []
  lastConsolidated : Nat := 0
deriving Repr

/-- `session.NewSession(key)` at wall-clock instant `now`. -/
def newSession (key : String) (now : Int) : Session :=
  { key := key, messages := [], createdAt := now, updatedAt := now,
    metadata := [], lastConsolidated := 0 }

/-- `Session.AddMessage(role, content, toolCalls)`; `nowStr`/`nowT` are the
formatted and raw current time. -/
def addMessage (s : Session) (role content : String) (toolCalls : List SessToolCall)
    (nowStr : String) (nowT : Int) : Session :=
  let msg : SessMessage :=
    { role := role, content := content, timestamp := nowStr,
      toolCalls := if toolCalls.length > 0 then toolCalls else [] }
  { s with messages := s.messages ++ [msg], updatedAt := nowT }

/-- A provider-facing conversation entry: the fixed key set the agent loop
stores in its `[]map[string]interface\x7b\x7d` message array. -/
structure PMsg where
  role : String := ""
  content : String := ""
  images : List String := []
  toolCalls : List SessToolCall := []
  toolCallID : String := ""
  name : String := ""
deriving DecidableEq, Repr

/-- `Session.GetHistory(maxMessages)`: the most recent entries rendered as
provider-facing maps. -/
def getHistory (s : Session) (maxMessages : Nat) : List PMsg :=
  let start := if s.messages.length > maxMessages then s.messages.length - maxMessages else 0
  (s.messages.drop start).map (fun m =>
    { role := m.role, content := m.content, toolCalls := m.toolCalls,
      toolCallID := m.toolCallID, name := m.name })

/-- One top-level chunk of a session file as seen by `json.Decoder`: either a
complete valid JSON value, or bytes that raise a syntax error in the scanner. -/
inductive JChunk where
  | bad
  | val (v : JValue)

/-- The state of a `json.Decoder`: the unconsumed input and the sticky error
(`dec.err`) that is set by a syntax error and returned by every later
`Decode` call. -/
structure DecoderState where
  rest : List JChunk
  err : Bool

/-- `decoder.More()`: peeks at the buffered input and reports whether a
non-whitespace byte remains.  A syntax error does not consume input, so after
one `More` keeps returning true. -/
def decoderMore (d : DecoderState) : Bool := !d.rest.isEmpty

/-- One call of `decoder.Decode(&data)` with `data : map[string]interface\x7b\x7d`:
a sticky error is returned unchanged; a syntax-error chunk sets the sticky
error without consuming input; a valid JSON value is consumed, and decodes to
a map only when it is an object. -/
def decoderDecode (d : DecoderState) : Option Params × DecoderState :=
  if d.err then (none, d)
  else
    match d.rest with
    | [] => (none, d)
    | .bad :: _ => (none, { d with err := true })
    | .val (.obj fs) :: rest => (some fs, { d with rest := rest })
    | .val _ :: rest => (none, { d with rest := rest })

/-- String field of a decoded JSON object, Go's zero value on a missing or
non-string field (as `json.Unmarshal` leaves the field untouched). -/
def jStr (fields : Params) (k : String) : String :=
  match jGet fields k with
  | some (.str s) => s
  | _ => ""

/-- `json.Unmarshal` of one decoded line into `session.FunctionCall`. -/
def unmarshalFunctionCall (v : JValue) : FunctionCall :=
  match v with
  | .obj fs => { name := jStr fs "name", arguments := jStr fs "arguments" }
  | _ => {}

/-- `json.Unmarshal` of one decoded line into `session.ToolCall`. -/
def unmarshalToolCall (v : JValue) : SessToolCall :=
  match v with
  | .obj fs =>
    { id := jStr fs "id", type := jStr fs "type",
      function := match jGet fs "function" with
        | some f => unmarshalFunctionCall f
        | none => {} }
  | _ => {}

/-- `json.Unmarshal` of one decoded line into `session.Message` (unmarshal
errors are ignored by the loader; mistyped fields keep their zero value). -/
def unmarshalMessage (fs : Params) : SessMessage :=
  { role := jStr fs "role", content := jStr fs "content",
    timestamp := jStr fs "timestamp",
    toolCalls := (match jGet fs "tool_calls" with
      | some (.arr vs) => vs.map unmarshalToolCall
      | _ => []),
    toolCallID := jStr fs "tool_call_id", name := jStr fs "name" }

/-- The loader's accumulator: `messages`, `metadata`, `createdAt` and
`lastConsolidated` locals of `SessionManager.load`. -/
structure LoadState where
  messages : List SessMessage := []
  metadata : Params := []
  createdAt : Int := 0
  lastConsolidated : Nat := 0

/-- The read loop of `SessionManager.load`, fuel-indexed: `none` means the
loop has not terminated within `fuel` iterations (the Go loop runs forever on
input on which every fuel bound returns `none`).  A metadata line whose
`metadata` field is missing or not an object hits the unchecked interface
assertion `data["metadata"].(map[string]interface\x7b\x7d)` and panics.
`parseTime` models `time.Parse(time.RFC3339, s)`, returning the zero time `0`
on failure. -/
def loadLoop (parseTime : String → Int) :
    Nat → DecoderState → LoadState → Option (GoOutcome LoadState)
  | 0, _, _ => none
  | fuel+1, dec, st =>
    if decoderMore dec then
      match decoderDecode dec with
      | (none, dec') => loadLoop parseTime fuel dec' st
      | (some data, dec') =>
        if (match jGet data "_type" with
            | some (.str s) => s == "metadata"
            | _ => false) then
          match jGet data "metadata" with
          | some (.obj m) =>
            let st := { st with metadata := m }
            let st := match jGet data "created_at" with
              | some (.str s) => { st with createdAt := parseTime s }
              | _ => st
            let st := match jGet data "last_consolidated" with
              | some (.num n) => { st with lastConsolidated := n.toNat }
              | _ => st
            loadLoop parseTime fuel dec' st
          | _ => some .panicked
        else
          loadLoop parseTime fuel dec'
            { st with messages := st.messages ++ [unmarshalMessage data] }
    else some (.ok st)

/-- `SessionManager.load(key)` on a file holding `chunks`, with the read loop
given `fuel` iterations.  The final session is assembled exactly as in the
source: a fresh session overwritten with the accumulated fields, keeping the
parsed creation time only when it is not the zero time. -/
def loadWithFuel (parseTime : String → Int) (key : String) (now : Int)
    (chunks : List JChunk) (fuel : Nat) : Option (GoOutcome Session) :=
  match loadLoop parseTime fuel { rest := chunks, err := false } {} with
  | none => none
  | some .panicked => some .panicked
  | some (.ok st) =>
    let sess : Session :=
      { key := key, messages := st.messages, createdAt := now, updatedAt := now,
        metadata := st.metadata, lastConsolidated := st.lastConsolidated }
    some (.ok (if st.createdAt ≠ 0 then { sess with createdAt := st.createdAt } else sess))

/-- `SessionManager.GetOrCreate(key)`: cached session, else disk load, else a
fresh empty session.  `file = none` models a missing session file. -/
def getOrCreate (parseTime : String → Int) (key : String) (now : Int)
    (cached : Option Session) (file : Option (List JChunk)) (fuel : Nat) :
    Option (GoOutcome Session) :=
  match cached with
  | some s => some (.ok s)
  | none =>
    match file with
    | none => some (.ok (newSession key now))
    | some chunks => loadWithFuel parseTime key now chunks fuel

/- ===================== Agent loop (internal/agent/loop.go) ===================== -/

/-- `providers.ToolCallRequest`: one tool call in an LLM response. -/
structure ChatToolCall where
  id : String := ""
  name : String := ""
  arguments : Params := []
deriving Repr

/-- `providers.LLMResponse`. -/
structure ChatResponse where
  content : String := ""
  toolCalls : List ChatToolCall := []
deriving Repr

/-- `LLMResponse.HasToolCalls()`. -/
def hasToolCalls (r : ChatResponse) : Bool := r.toolCalls.length > 0

/-- The assistant-message dictionary built for each tool call
(`toolCallDicts[i]` in the source); `marshal` models `json.Marshal` of the
argument map. -/
def toolCallDictM (marshal : Params → String) (tc : ChatToolCall) : SessToolCall :=
  { id := tc.id, type := "function",
    function := { name := tc.name, arguments := marshal tc.arguments } }

/-- The environment the agent loop runs in: the LLM transport, the tool
registry, the context builder, the session manager's lookup, the loop limits
and the clock. -/
structure AgentEnv where
  chat : List PMsg → Except String ChatResponse
  reg : List Tool
  buildMessages : List PMsg → String → String → String → List String → List PMsg
  getSession : String → Session
  maxIterations : Nat
  memoryWindow : Nat
  marshalParams : Params → String
  nowStr : String := ""
  nowT : Int := 0

/-- `AgentLoop.runAgentLoop`: iterate LLM calls, executing tool calls and
appending assistant/tool entries to the provider message array, until the LLM
returns no tool calls or the iteration cap is reached (in which case
`finalContent` is still the empty string). -/
def runAgentIter (env : AgentEnv) : Nat → List PMsg → Except String String
  | 0, _ => .ok ""
  | fuel+1, messages =>
    match env.chat messages with
    | .error e => .error e
    | .ok resp =>
      if hasToolCalls resp then
        let withAsst := messages ++
          [{ role := "assistant", content := resp.content,
             toolCalls := resp.toolCalls.map (toolCallDictM env.marshalParams) }]
        let withResults := withAsst ++ resp.toolCalls.map (fun tc =>
          { role := "tool", toolCallID := tc.id, name := tc.name,
            content := registryExecute env.reg tc.name tc.arguments })
        runAgentIter env fuel withResults
      else .ok resp.content

/-- The fallback reply used when the final content of a user turn is empty. -/
def genericNoResponse : String :=
  "I" ++ squo ++ "ve completed processing but have no response to give."

/-- The reply to `/help`. -/
def helpText : String :=
  "🐈 nanobot commands:\n/new — Start a new conversation\n/help — Show available commands"

/-- Parse `"origin_channel:origin_chat_id"` out of a system message's chat id
(`strings.Index(msg.ChatID, ":")` in the source; no colon keeps the default
origin channel `"cli"`). -/
def splitOrigin (chatID : String) : String × String :=
  match chatID.splitOn ":" with
  | [] => ("cli", chatID)
  | [_] => ("cli", chatID)
  | c :: rest => (c, String.intercalate ":" rest)

/-- `AgentLoop.processSystemMessage`: run the loop on the announcement payload
under the origin session and route the reply to the parsed origin.  The
returned list collects the sessions passed to `sessions.Save`. -/
def processSystemMessage (env : AgentEnv) (msg : InboundMessage) :
    Except String (OutboundMessage × List Session) :=
  let origin := splitOrigin msg.chatID
  let sessionKey := origin.1 ++ ":" ++ origin.2
  let sess := env.getSession sessionKey
  let messages := env.buildMessages (getHistory sess env.memoryWindow) msg.content origin.1 origin.2 []
  match runAgentIter env env.maxIterations messages with
  | .error e => .error e
  | .ok fc =>
    let finalContent := if fc = "" then "Background task completed." else fc
    let sess := addMessage sess "user" ("[System: " ++ msg.senderID ++ "] " ++ msg.content) [] env.nowStr env.nowT
    let sess := addMessage sess "assistant" finalContent [] env.nowStr env.nowT
    .ok ({ channel := origin.1, chatID := origin.2, content := finalContent }, [sess])

/-- `AgentLoop.processMessage`: dispatch system messages and the `/new` and
`/help` commands, otherwise run the iteration and append exactly the user
message and the final assistant reply to the session.  The second component
collects the sessions passed to `sessions.Save`, in order. -/
def processMessage (env : AgentEnv) (msg : InboundMessage) :
    Except String (OutboundMessage × List Session) :=
  if msg.channel = "system" then processSystemMessage env msg
  else
    let key := if msg.sessionKey = "" then msg.channel ++ ":" ++ msg.chatID else msg.sessionKey
    let sess := env.getSession key
    if msg.content = "/new" then
      .ok ({ channel := msg.channel, chatID := msg.chatID, content := "新会话已创建" },
           [newSession key env.nowT])
    else if msg.content = "/help" then
      .ok ({ channel := msg.channel, chatID := msg.chatID, content := helpText }, [])
    else
      let messages := env.buildMessages (getHistory sess env.memoryWindow) msg.content msg.channel msg.chatID msg.media
      match runAgentIter env env.maxIterations messages with
      | .error e => .error e
      | .ok fc =>
        let finalContent := if fc = "" then genericNoResponse else fc
        let sess := addMessage sess "user" msg.content [] env.nowStr env.nowT
        let sess := addMessage sess "assistant" finalContent [] env.nowStr env.nowT
        .ok ({ channel := msg.channel, chatID := msg.chatID, content := finalContent,
               metadata := msg.metadata }, [sess])

/-- `AgentLoop.consolidateMemory`: consolidate the slice
`messages[lastConsolidated : lastConsolidated + keepCount]` through the LLM.
`chat` is the outcome of the `provider.Chat` call; the returned triple is the
updated session, whether `sessions.Save(sess)` was called, and the textual
results of the executed `save_memory` tool calls. -/
def consolidateMemory (reg : List Tool) (chat : Except String ChatResponse)
    (sess : Session) (keepCount : Nat) : Session × Bool × List String :=
  let startConsolidate := sess.lastConsolidated
  let endConsolidate := startConsolidate + keepCount
  let totalMessages := sess.messages.length
  let endConsolidate := if endConsolidate > totalMessages then totalMessages else endConsolidate
  if startConsolidate ≥ endConsolidate then (sess, false, [])
  else
    let oldMessages := (sess.messages.drop startConsolidate).take (endConsolidate - startConsolidate)
    if oldMessages.length = 0 then (sess, false, [])
    else
      match chat with
      | .error _ => (sess, false, [])
      | .ok resp =>
        let results :=
          if hasToolCalls resp then
            (resp.toolCalls.filter (fun tc => tc.name == "save_memory")).map
              (fun tc => registryExecute reg tc.name tc.arguments)
          else []
        ({ sess with lastConsolidated := endConsolidate }, true, results)

/- ===================== Subagent manager (subagent.go) ===================== -/

/-- The fields of a `subagentTask` relevant to the running-task map (the
cancellation handle is modelled by `CancelTask` removing the entry). -/
structure SubagentTask where
  id : String := ""
  label : String := ""
  task : String := ""
  originChannel : String := ""
  originChatID : String := ""
deriving DecidableEq, Repr

/-- The environment a subagent runs in. -/
structure SubagentEnv where
  chat : List PMsg → Except String ChatResponse
  reg : List Tool
  maxIterations : Nat
  marshalParams : Params → String
  systemPrompt : String := ""

/-- The subagent's reduced reasoning loop (same structure as the main
iteration). -/
def subagentIter (env : SubagentEnv) : Nat → List PMsg → Except String String
  | 0, _ => .ok ""
  | fuel+1, messages =>
    match env.chat messages with
    | .error e => .error e
    | .ok resp =>
      if hasToolCalls resp then
        subagentIter env fuel (messages ++
          [{ role := "assistant", content := resp.content,
             toolCalls := resp.toolCalls.map (toolCallDictM env.marshalParams) }] ++
          resp.toolCalls.map (fun tc =>
            { role := "tool", toolCallID := tc.id, name := tc.name,
              content := registryExecute env.reg tc.name tc.arguments }))
      else .ok resp.content

/-- The status word of `announceResult`. -/
def announceStatusText (status : String) : String :=
  if status = "error" then "failed" else "completed successfully"

/-- The announcement body built by `SubagentManager.announceResult`. -/
def announceContent (label task result status : String) : String :=
  "[Subagent " ++ squo ++ label ++ squo ++ " " ++ announceStatusText status ++ "]\n\nTask: " ++
  task ++ "\n\nResult:\n" ++ result ++
  "\n\nSummarize this naturally for the user. Keep it brief (1-2 sentences). Do not mention technical details like \"subagent\" or task IDs."

/-- `SubagentManager.announceResult`: the synthetic inbound message published
to the bus when a subagent finishes. -/
def announceResult (label task result oc ocid status : String) (nowT : Int) :
    InboundMessage :=
  { channel := "system", senderID := "subagent", chatID := oc ++ ":" ++ ocid,
    content := announceContent label task result status, timestamp := nowT }

/-- The two initial messages of `SubagentManager.runSubagent`. -/
def subagentInitialMessages (env : SubagentEnv) (task : String) : List PMsg :=
  [{ role := "system", content := env.systemPrompt }, { role := "user", content := task }]

/-- `SubagentManager.runSubagent`: run the reduced loop, announce the result,
and clean the task out of `runningTasks` — but only on the success /
iteration-cap path; the LLM-error path returns before the cleanup.  The
result is the updated running-task map and the announcement that was
published. -/
def runSubagent (env : SubagentEnv) (taskID label task originChannel originChatID : String)
    (nowT : Int) (runningTasks : List (String × SubagentTask)) :
    List (String × SubagentTask) × InboundMessage :=
  match subagentIter env env.maxIterations (subagentInitialMessages env task) with
  | .error e =>
    (runningTasks,
     announceResult label task ("Error: " ++ e) originChannel originChatID "error" nowT)
  | .ok res =>
    let finalResult := if res = "" then "Task completed but no final response was generated." else res
    (runningTasks.filter (fun p => p.1 ≠ taskID),
     announceResult label task finalResult originChannel originChatID "ok" nowT)

/-- `SubagentManager.Spawn` registering the new task in the by-id map (the
detached reasoning loop itself is `runSubagent`). -/
def spawnRegister (runningTasks : List (String × SubagentTask)) (t : SubagentTask) :
    List (String × SubagentTask) :=
  runningTasks ++ [(t.id, t)]

/-- `SubagentManager.CancelTask`: cancel and remove when present. -/
def cancelTask (runningTasks : List (String × SubagentTask)) (taskID : String) :
    List (String × SubagentTask) × Bool :=
  match runningTasks.find? (fun p => p.1 == taskID) with
  | some _ => (runningTasks.filter (fun p => p.1 ≠ taskID), true)
  | none => (runningTasks, false)

/- ===================== Cron scheduler (internal/cron/service.go) ===================== -/

/-- A Go `time.Time`: an absolute instant (Unix milliseconds) tagged with a
location.  `In(loc)` changes only the location; comparisons use the instant. -/
structure GoTime where
  unixMs : Int := 0
  loc : String := "Local"
deriving DecidableEq, Repr, Inhabited

/-- `time.Time.Before`. -/
def GoTime.before (a b : GoTime) : Bool := a.unixMs < b.unixMs

/-- `time.Time.After`. -/
def GoTime.after (a b : GoTime) : Bool := b.unixMs < a.unixMs

/-- `time.Time.In(loc)`. -/
def GoTime.inLoc (t : GoTime) (l : String) : GoTime := { t with loc := l }

/-- `t.Add(d)` for a duration given in milliseconds. -/
def GoTime.addMs (t : GoTime) (d : Int) : GoTime := { t with unixMs := t.unixMs + d }

/-- `cron.Schedule` (the tagged variant record of a job's schedule). -/
structure Schedule where
  kind : String := ""
  everyMs : Int := 0
  cronExpr : String := ""
  tz : String := ""
  atMs : Int := 0
deriving DecidableEq, Repr, Inhabited

/-- `cron.Job`. -/
structure Job where
  id : String := ""
  name : String := ""
  message : String := ""
  schedule : Schedule := {}
  channel : String := ""
  toDest : String := ""
  deliver : Bool := false
  deleteAfterRun : Bool := false
  createdAt : GoTime := {}
  nextRun : GoTime := {}
  triggerAgent : Bool := false
  agentCommand : String := ""
deriving DecidableEq, Repr, Inhabited

/-- The external cron machinery of `robfig/cron` and `time.LoadLocation`:
`parse` is the 5-field parser (returning an abstract handle for the parsed
schedule), `next` is `cron.Schedule.Next`, and `loadLocation` resolves a
timezone name. -/
structure CronEnv where
  parse : String → Option Nat
  loadLocation : String → Option String
  next : Nat → GoTime → GoTime

/-- `CronService.calculateCronNextRun`: parse the 5-field expression, fall
back to `now + 1h` when parsing fails, compute in the requested timezone when
it loads, otherwise in the local zone. -/
def calculateCronNextRun (env : CronEnv) (schedule : Schedule) (now : GoTime) : GoTime :=
  match env.parse schedule.cronExpr with
  | none => now.addMs 3600000
  | some sched =>
    let baseTime :=
      if schedule.tz ≠ "" then
        match env.loadLocation schedule.tz with
        | none => now
        | some loc => now.inLoc loc
      else now
    env.next sched baseTime

/-- `CronService.calculateNextRun` at wall-clock instant `now`. -/
def calculateNextRun (env : CronEnv) (now : GoTime) (schedule : Schedule) : GoTime :=
  if schedule.kind = "every" then now.addMs schedule.everyMs
  else if schedule.kind = "at" then { unixMs := schedule.atMs, loc := now.loc }
  else if schedule.kind = "cron" then calculateCronNextRun env schedule now
  else now

/-- `jobHeap.Less(i, j)` read off a list (the heap's backing array):
`h[i].job.NextRun.Before(h[j].job.NextRun)`. -/
def jobLessAt (l : List Job) (i j : Nat) : Bool :=
  (l.getD i default).nextRun.unixMs < (l.getD j default).nextRun.unixMs

/-- `jobHeap.Swap(i, j)` (the per-item heap indices are bookkeeping with no
observable effect and are dropped). -/
def swapL (l : List Job) (i j : Nat) : List Job :=
  (l.set i (l.getD j default)).set j (l.getD i default)

/-- The index `j` chosen by `container/heap.down`: the left child `2*i+1`, or
the right child when it exists and is `Less`. -/
def minChildIdx (l : List Job) (i n : Nat) : Nat :=
  if 2*i+2 < n && jobLessAt l (2*i+2) (2*i+1) then 2*i+2 else 2*i+1

/-- `container/heap.down(h, i, n)`, fuel-indexed (the hole index strictly
increases every iteration, so `n` units of fuel always suffice). -/
def heapDown : Nat → List Job → Nat → Nat → List Job
  | 0, l, _, _ => l
  | fuel+1, l, i, n =>
    if 2*i+1 < n then
      let j := minChildIdx l i n
      if jobLessAt l j i then heapDown fuel (swapL l i j) j n else l
    else l

/-- `container/heap.up(h, j)`, fuel-indexed (`j` strictly decreases). -/
def heapUp : Nat → List Job → Nat → List Job
  | 0, l, _ => l
  | fuel+1, l, j =>
    let i := (j-1)/2
    if i == j || !(jobLessAt l j i) then l
    else heapUp fuel (swapL l i j) i

/-- `heap.Push(h, x)`: append, then sift up from the last index. -/
def heapPush (l : List Job) (x : Job) : List Job :=
  heapUp (l.length + 1) (l ++ [x]) l.length

/-- `heap.Pop(h)` on the backing array, keeping only the remaining heap (the
popped value is read off the root before the call, as `checkAndRun` does):
swap the root with the last element, sift down over the shortened region,
remove the last element. -/
def heapPopList (l : List Job) : List Job :=
  let n := l.length - 1
  (heapDown n (swapL l 0 n) 0 n).take n

/-- `Job.DeleteAfterRun || Job.Schedule.Kind == "at"`: the job is single-shot
and is removed from the map after firing. -/
def isSingleShot (j : Job) : Bool := j.deleteAfterRun || j.schedule.kind == "at"

/-- `delete(c.jobs, id)` on the by-id map. -/
def deleteJobKey (jobs : List (String × Job)) (id : String) : List (String × Job) :=
  jobs.filter (fun p => p.1 ≠ id)

/-- The pop-all-due loop of `CronService.checkAndRun`, fuel-indexed: pop every
job whose `NextRun` is not after `now`, record it as fired (execution is
launched on a fresh goroutine), then delete it from the map when single-shot
or re-insert it with a next run recomputed from the current wall clock `nowR`
(the `time.Now()` observed at the recomputation).  `none` means the loop did
not finish within `fuel` iterations. -/
def checkAndRunLoop (env : CronEnv) (now nowR : GoTime) :
    Nat → List Job → List (String × Job) → List Job →
    Option (List Job × List (String × Job) × List Job)
  | 0, _, _, _ => none
  | fuel+1, h, jobs, fired =>
    match h with
    | [] => some (h, jobs, fired)
    | top :: _ =>
      if top.nextRun.after now then some (h, jobs, fired)
      else
        let h' := heapPopList h
        if isSingleShot top then
          checkAndRunLoop env now nowR fuel h' (deleteJobKey jobs top.id) (fired ++ [top])
        else
          let top' := { top with nextRun := calculateNextRun env nowR top.schedule }
          checkAndRunLoop env now nowR fuel (heapPush h' top') jobs (fired ++ [top])

/-- `CronService.checkAndRun` on state `(h, jobs)`.  Under the termination
conditions of the theorems below, `h.length + 1` units of fuel are enough for
the Go loop to exit. -/
def checkAndRun (env : CronEnv) (now nowR : GoTime) (h : List Job)
    (jobs : List (String × Job)) :
    Option (List Job × List (String × Job) × List Job) :=
  checkAndRunLoop env now nowR (h.length + 1) h jobs []

/-- The job is due at the wake instant: `!item.job.NextRun.After(now)`. -/
def dueB (now : GoTime) (j : Job) : Bool := !(j.nextRun.after now)

/-- The number of due jobs in the heap (the loop's termination measure). -/
def dueCount (now : GoTime) (l : List Job) : Nat := (l.filter (dueB now)).length

/-- The re-inserted copies of the periodic jobs among `ps`, with recomputed
next runs. -/
def reinserted (env : CronEnv) (nowR : GoTime) (ps : List Job) : List Job :=
  (ps.filter (fun j => !(isSingleShot j))).map
    (fun j => { j with nextRun := calculateNextRun env nowR j.schedule })

/-- The ids deleted from the by-id map while processing `ps`. -/
def singleShotIds (ps : List Job) : List String :=
  (ps.filter isSingleShot).map (fun j => j.id)

/-- `h[i].job.NextRun` as an instant (out-of-range indices read the default
job, mirroring `getD`). -/
def nrAt (l : List Job) (i : Nat) : Int := (l.getD i default).nextRun.unixMs

/-- `j` is a heap child of `i`. -/
def HeapEdge (i j : Nat) : Prop := j = 2*i+1 ∨ j = 2*i+2

/-- The min-heap ordering holds on every edge whose child lies below `n`. -/
def HeapUpTo (l : List Job) (n : Nat) : Prop :=
  ∀ i j, HeapEdge i j → j < n → nrAt l i ≤ nrAt l j

/-- The backing array satisfies the min-heap ordering (`jobHeap`'s invariant
maintained by `container/heap`). -/
def IsMinHeap (l : List Job) : Prop := HeapUpTo l l.length

/-- The heap ordering holds on every edge below `n` whose parent is not `i`
(the root replacement may violate the edges out of `i`). -/
def ExceptAt (l : List Job) (i n : Nat) : Prop :=
  ∀ p c, HeapEdge p c → c < n → p ≠ i → nrAt l p ≤ nrAt l c

/-- Precondition of `heapDown` at hole `i`: ordered except at `i`, and the
parent of `i` (when `i` is not the root) already dominates `i`'s children. -/
def DownPre (l : List Job) (i n : Nat) : Prop :=
  ExceptAt l i n ∧ ∀ c, HeapEdge i c → c < n → 0 < i → nrAt l ((i-1)/2) ≤ nrAt l c

/-- Precondition of `heapUp` at hole `j` over region `n`: every edge whose
child is not `j` is ordered, and the grandparent of `j` already dominates `j`'s
children. -/
def UpPre (l : List Job) (j n : Nat) : Prop :=
  (∀ p c, HeapEdge p c → c < n → c ≠ j → nrAt l p ≤ nrAt l c) ∧
  (∀ c, HeapEdge j c → c < n → nrAt l ((j-1)/2) ≤ nrAt l c)

/-- The bus invariant: the buffer size is the one the bus was created with,
neither queue ever exceeds it, and the channels are still open. -/
def BusInv (n : Nat) (b : MessageBus) : Prop :=
  b.bufferSize = n ∧ b.inbound.length ≤ n ∧ b.outbound.length ≤ n ∧ b.chansClosed = false

/-- The job is due at instant `now` (`NextRun ≤ now`), as a proposition. -/
def DueP (now : GoTime) (j : Job) : Prop := j.nextRun.unixMs ≤ now.unixMs

/-- The job's `every` interval is non-negative (the termination condition for
the pop-all-due loop: a due `every(d)` job with `d < 0` would be re-inserted
still due and starve the scheduler). -/
def EveryOk (j : Job) : Prop := j.schedule.kind = "every" → 0 ≤ j.schedule.everyMs

/-- The external cron machinery is strict: `robfig/cron`'s `Schedule.Next`
always returns an instant strictly after its argument. -/
def CronEnvStrict (env : CronEnv) : Prop := ∀ s t, t.unixMs < (env.next s t).unixMs

/- ===================== Concrete instances used by witnesses and counterexamples ===================== -/

/-- A tool with one required parameter, used to exercise the registry. -/
def toolT0 : Tool :=
  { name := "t",
    validateParams := fun ps => if (jGet ps "x").isNone then ["missing required parameter: x"] else [],
    execute := fun _ => .error "boom" }

/-- A four-message session with nothing consolidated yet. -/
def sessC3 : Session :=
  { key := "cli:direct",
    messages :=
      [ { role := "user", content := "q1" }, { role := "assistant", content := "a1" },
        { role := "user", content := "q2" }, { role := "assistant", content := "a2" } ] }

/-- An LLM response that does not call any tool. -/
def respNoTool : ChatResponse := { content := "Nothing worth saving." }

/-- Arguments of a `save_memory` tool call. -/
def saveArgsW : Params :=
  [("history_entry", .str "[2026-10-11 12:00] summary"), ("memory_update", .str "memory")]

/-- A tool call requesting `save_memory`. -/
def saveCallW : ChatToolCall := { id := "c1", name := "save_memory", arguments := saveArgsW }

/-- An LLM response that calls `save_memory`. -/
def respSave : ChatResponse := { content := "", toolCalls := [saveCallW] }

/-- A concrete agent environment whose LLM always answers `4` directly. -/
def envC6 : AgentEnv :=
  { chat := fun _ => .ok { content := "4" },
    reg := [],
    buildMessages := fun hist content _ _ _ => hist ++ [{ role := "user", content := content }],
    getSession := fun key => { key := key },
    maxIterations := 20, memoryWindow := 50,
    marshalParams := fun _ => "", nowStr := "2026-10-11T12:00:00Z", nowT := 100 }

/-- The inbound message `2+2?` from the CLI. -/
def msgC6 : InboundMessage := { channel := "cli", chatID := "direct", content := "2+2?" }

/-- A subagent environment whose LLM transport fails. -/
def subEnvErr : SubagentEnv :=
  { chat := fun _ => .error "connection refused", reg := [], maxIterations := 20,
    marshalParams := fun _ => "", systemPrompt := "# Subagent" }

/-- A subagent environment whose LLM completes immediately. -/
def subEnvOk : SubagentEnv :=
  { chat := fun _ => .ok { content := "done" }, reg := [], maxIterations := 20,
    marshalParams := fun _ => "", systemPrompt := "# Subagent" }

/-- A registered subagent task. -/
def taskA : SubagentTask :=
  { id := "1a2b3c4d", label := "calc", task := "compute X",
    originChannel := "cli", originChatID := "direct" }

/-- A concrete cron environment: the parser rejects exactly `"bad expr"`, only
`America/New_York` loads, and the parsed schedule fires one minute after its
base time. -/
def cronEnvW : CronEnv :=
  { parse := fun e => if e = "bad expr" then none else some 0,
    loadLocation := fun tz => if tz = "America/New_York" then some "America/New_York" else none,
    next := fun _ t => t.addMs 60000 }

/-- A due single-shot `at` job whose delete-after-run flag is unset. -/
def jobAtW : Job :=
  { id := "job_1", name := "oneshot", message := "hi", channel := "cli", toDest := "direct",
    schedule := { kind := "at", atMs := 1000 }, nextRun := { unixMs := 1000 },
    deleteAfterRun := false }

/-- A due periodic job. -/
def jobEveryW : Job :=
  { id := "job_2", name := "tick", message := "t", channel := "cli", toDest := "direct",
    schedule := { kind := "every", everyMs := 500 }, nextRun := { unixMs := 900 } }

/-- A due cron job whose expression does not parse. -/
def jobCronW : Job :=
  { id := "job_3", name := "nightly", channel := "cli", toDest := "direct",
    schedule := { kind := "cron", cronExpr := "bad expr" }, nextRun := { unixMs := 800 } }

/- ===================== Helper lemmas: lists and swaps ===================== -/

theorem getD_eq_getElem {l : List Job} {i : Nat} (h : i < l.length) :
    l.getD i default = l[i] := by
  rw [List.getD_eq_getElem?_getD, List.getElem?_eq_getElem h]; rfl

theorem set_getD_self {l : List Job} {i : Nat} (h : i < l.length) :
    l.set i (l.getD i default) = l := by
  apply List.ext_getElem?
  intro m
  by_cases hm : m = i
  · subst hm
    rw [List.getElem?_set_eq_of_lt _ h, List.getD_eq_getElem?_getD,
        List.getElem?_eq_getElem h]
    rfl
  · exact List.getElem?_set_ne (Ne.symm hm)

theorem swapL_length (l : List Job) (i j : Nat) : (swapL l i j).length = l.length := by
  simp [swapL]

theorem getD_swapL_snd {l : List Job} {i j : Nat} (hj : j < l.length) :
    (swapL l i j).getD j default = l.getD i default := by
  unfold swapL
  rw [List.getD_eq_getElem?_getD, List.getElem?_set_eq_of_lt _ (by simpa using hj)]
  rfl

theorem getD_swapL_fst {l : List Job} {i j : Nat} (hi : i < l.length) (hij : i ≠ j) :
    (swapL l i j).getD i default = l.getD j default := by
  unfold swapL
  rw [List.getD_eq_getElem?_getD, List.getElem?_set_ne (Ne.symm hij),
      List.getElem?_set_eq_of_lt _ hi]
  rfl

theorem getD_swapL_other {l : List Job} {i j k : Nat} (hki : k ≠ i) (hkj : k ≠ j) :
    (swapL l i j).getD k default = l.getD k default := by
  unfold swapL
  rw [List.getD_eq_getElem?_getD, List.getElem?_set_ne (Ne.symm hkj),
      List.getElem?_set_ne (Ne.symm hki), ← List.getD_eq_getElem?_getD]

theorem swapL_perm_lt {l : List Job} {i j : Nat} (hij : i < j) (hj : j < l.length) :
    (swapL l i j).Perm l := by
  have hi : i < l.length := lt_trans hij hj
  have hlenti : (l.take i).length = i := by rw [List.length_take]; omega
  obtain ⟨k, hk⟩ : ∃ k, j - i = k + 1 := ⟨j - i - 1, by omega⟩
  have hklt : k < (l.drop (i+1)).length := by
    rw [List.length_drop]; omega
  have hgetd : (l.drop (i+1)).getD k default = l.getD j default := by
    rw [List.getD_eq_getElem?_getD, List.getElem?_drop, List.getD_eq_getElem?_getD,
        show i + 1 + k = j from by omega]
  have e1 : l.set i (l.getD j default) = l.take i ++ (l.getD j default) :: l.drop (i+1) :=
    List.set_eq_take_cons_drop _ hi
  have e2 : (l.take i ++ (l.getD j default) :: l.drop (i+1)).set j (l.getD i default)
      = l.take i ++ ((l.getD j default) :: l.drop (i+1)).set (j - i) (l.getD i default) := by
    rw [List.set_append_right _ _ (by rw [hlenti]; omega), hlenti]
  have e3 : ((l.getD j default) :: l.drop (i+1)).set (j - i) (l.getD i default)
      = (l.getD j default) :: (l.drop (i+1)).set k (l.getD i default) := by
    rw [hk]
    rfl
  have e4 : (l.drop (i+1)).set k (l.getD i default)
      = (l.drop (i+1)).take k ++ (l.getD i default) :: (l.drop (i+1)).drop (k+1) :=
    List.set_eq_take_cons_drop _ hklt
  have horig : l =
      l.take i ++ (l.getD i default) ::
        ((l.drop (i+1)).take k ++ (l.getD j default) :: (l.drop (i+1)).drop (k+1)) := by
    conv_lhs => rw [← set_getD_self hi, List.set_eq_take_cons_drop _ hi]
    congr 2
    conv_lhs => rw [← set_getD_self hklt, List.set_eq_take_cons_drop _ hklt]
    rw [hgetd]
  have hgoal : swapL l i j =
      l.take i ++ (l.getD j default) ::
        ((l.drop (i+1)).take k ++ (l.getD i default) :: (l.drop (i+1)).drop (k+1)) := by
    unfold swapL
    rw [e1, e2, e3, e4]
  rw [hgoal]
  conv_rhs => rw [horig]
  apply List.Perm.append_left
  exact ((List.Perm.cons _ List.perm_middle).trans
    (List.Perm.swap _ _ _)).trans (List.Perm.cons _ List.perm_middle.symm)

theorem swapL_perm {l : List Job} {i j : Nat} (hi : i < l.length) (hj : j < l.length) :
    (swapL l i j).Perm l := by
  rcases Nat.lt_trichotomy i j with h | h | h
  · exact swapL_perm_lt h hj
  · subst h
    unfold swapL
    rw [List.set_set, set_getD_self hi]
  · have : swapL l i j = swapL l j i := by
      unfold swapL
      rw [List.set_comm _ _ _ (by omega)]
    rw [this]
    exact swapL_perm_lt h hi

/- ===================== Message bus lemmas, claims C1 and C2 ===================== -/

theorem mem_publishInbound {b : MessageBus} {m : InboundMessage} {r : PubResult}
    {b' : MessageBus} (hcc : b.chansClosed = false) (h : (r, b') ∈ publishInbound b m) :
    (r = .ok ∧ b' = { b with inbound := b.inbound ++ [m] } ∧ b.inbound.length < b.bufferSize) ∨
    (r = .ctxErr ∧ b' = b) ∨ (r = .busFull ∧ b' = b) := by
  unfold publishInbound sendCaseInbound doneCase at h
  rw [hcc] at h
  by_cases h1 : b.inbound.length < b.bufferSize <;> by_cases h2 : b.cancelled <;>
    [simp [h1, h2, hcc] at h ⊢; simp [h1, h2, hcc] at h ⊢; simp [h1, h2, hcc] at h; simp [h1, h2, hcc] at h] <;>
    tauto

theorem mem_publishOutbound {b : MessageBus} {m : OutboundMessage} {r : PubResult}
    {b' : MessageBus} (hcc : b.chansClosed = false) (h : (r, b') ∈ publishOutbound b m) :
    (r = .ok ∧ b' = { b with outbound := b.outbound ++ [m] } ∧ b.outbound.length < b.bufferSize) ∨
    (r = .ctxErr ∧ b' = b) ∨ (r = .busFull ∧ b' = b) := by
  unfold publishOutbound sendCaseOutbound doneCase at h
  rw [hcc] at h
  by_cases h1 : b.outbound.length < b.bufferSize <;> by_cases h2 : b.cancelled <;>
    [simp [h1, h2, hcc] at h ⊢; simp [h1, h2, hcc] at h ⊢; simp [h1, h2, hcc] at h; simp [h1, h2, hcc] at h] <;>
    tauto

theorem mem_consumeInbound {b : MessageBus} {cd : Bool} {r : ConsumeResult InboundMessage}
    {b' : MessageBus} (h : (r, b') ∈ consumeInbound b cd) :
    (∃ m rest, b.inbound = m :: rest ∧ b' = { b with inbound := rest }) ∨ b' = b := by
  unfold consumeInbound at h
  rcases hq : b.inbound with _ | ⟨m, rest⟩ <;> rw [hq] at h
  · right
    rcases List.mem_append.mp h with h' | h' <;>
      [skip; skip] <;> first
      | (rcases Bool.eq_false_or_eq_true b.chansClosed with hc | hc <;> rw [hc] at h' <;> simp at h' <;> tauto)
      | (rcases Bool.eq_false_or_eq_true cd with hc | hc <;> rw [hc] at h' <;> simp at h' <;> tauto)
  · rcases List.mem_append.mp h with h' | h'
    · simp at h'
      exact Or.inl ⟨m, rest, rfl, h'.2⟩
    · right
      rcases Bool.eq_false_or_eq_true cd with hc | hc <;> rw [hc] at h' <;> simp at h' <;> tauto

theorem mem_consumeOutbound {b : MessageBus} {cd : Bool} {r : ConsumeResult OutboundMessage}
    {b' : MessageBus} (h : (r, b') ∈ consumeOutbound b cd) :
    (∃ m rest, b.outbound = m :: rest ∧ b' = { b with outbound := rest }) ∨ b' = b := by
  unfold consumeOutbound at h
  rcases hq : b.outbound with _ | ⟨m, rest⟩ <;> rw [hq] at h
  · right
    rcases List.mem_append.mp h with h' | h' <;>
      [skip; skip] <;> first
      | (rcases Bool.eq_false_or_eq_true b.chansClosed with hc | hc <;> rw [hc] at h' <;> simp at h' <;> tauto)
      | (rcases Bool.eq_false_or_eq_true cd with hc | hc <;> rw [hc] at h' <;> simp at h' <;> tauto)
  · rcases List.mem_append.mp h with h' | h'
    · simp at h'
      exact Or.inl ⟨m, rest, rfl, h'.2⟩
    · right
      rcases Bool.eq_false_or_eq_true cd with hc | hc <;> rw [hc] at h' <;> simp at h' <;> tauto

theorem busStep_inv {n : Nat} {b b' : MessageBus} (hinv : BusInv n b) (hs : BusStep b b') :
    BusInv n b' := by
  obtain ⟨hbs, hin, hout, hcc⟩ := hinv
  cases hs with
  | pubIn m r h =>
    rcases mem_publishInbound hcc h with ⟨_, rfl, hlt⟩ | ⟨_, rfl⟩ | ⟨_, rfl⟩
    · refine ⟨hbs, ?_, hout, hcc⟩
      simp only [List.length_append, List.length_cons, List.length_nil]
      omega
    · exact ⟨hbs, hin, hout, hcc⟩
    · exact ⟨hbs, hin, hout, hcc⟩
  | pubOut m r h =>
    rcases mem_publishOutbound hcc h with ⟨_, rfl, hlt⟩ | ⟨_, rfl⟩ | ⟨_, rfl⟩
    · refine ⟨hbs, hin, ?_, hcc⟩
      simp only [List.length_append, List.length_cons, List.length_nil]
      omega
    · exact ⟨hbs, hin, hout, hcc⟩
    · exact ⟨hbs, hin, hout, hcc⟩
  | consIn cd r h =>
    rcases mem_consumeInbound h with ⟨m, rest, hq, rfl⟩ | rfl
    · refine ⟨hbs, ?_, hout, hcc⟩
      have : b.inbound.length = rest.length + 1 := by rw [hq]; rfl
      simp only []
      omega
    · exact ⟨hbs, hin, hout, hcc⟩
  | consOut cd r h =>
    rcases mem_consumeOutbound h with ⟨m, rest, hq, rfl⟩ | rfl
    · refine ⟨hbs, hin, ?_, hcc⟩
      have : b.outbound.length = rest.length + 1 := by rw [hq]; rfl
      simp only []
      omega
    · exact ⟨hbs, hin, hout, hcc⟩
  | cancelCtx => exact ⟨hbs, hin, hout, hcc⟩

theorem busReachable_inv {n : Nat} {b : MessageBus} (h : BusReachable n b) : BusInv n b := by
  induction h with
  | init => exact ⟨rfl, by simp [busNew], by simp [busNew], rfl⟩
  | step _ hs ih => exact busStep_inv ih hs

/-- C1: on a bus created with buffer size `n`, after any history of publishes,
consumes and cancellation, every `PublishInbound` call either enqueues the
message at the back of the inbound queue and returns success, returns
`ErrBusFull` leaving the bus unchanged, or returns the closed-bus context
error leaving the bus unchanged — and the inbound queue's length never exceeds
`n`; likewise for `PublishOutbound` and the outbound queue. -/
theorem C1_publish_trichotomy {n : Nat} {b : MessageBus} (hb : BusReachable n b)
    (mi : InboundMessage) (mo : OutboundMessage) :
    b.inbound.length ≤ n ∧ b.outbound.length ≤ n ∧
    (∀ r b', (r, b') ∈ publishInbound b mi →
      ((r = .ok ∧ b'.inbound = b.inbound ++ [mi]) ∨
       (r = .busFull ∧ b' = b) ∨ (r = .ctxErr ∧ b' = b)) ∧
      b'.inbound.length ≤ n) ∧
    (∀ r b', (r, b') ∈ publishOutbound b mo →
      ((r = .ok ∧ b'.outbound = b.outbound ++ [mo]) ∨
       (r = .busFull ∧ b' = b) ∨ (r = .ctxErr ∧ b' = b)) ∧
      b'.outbound.length ≤ n) := by
  obtain ⟨hbs, hin, hout, hcc⟩ := busReachable_inv hb
  refine ⟨hin, hout, ?_, ?_⟩
  · intro r b' h
    rcases mem_publishInbound hcc h with ⟨hr, rfl, hlt⟩ | ⟨hr, rfl⟩ | ⟨hr, rfl⟩
    · refine ⟨Or.inl ⟨hr, rfl⟩, ?_⟩
      simp only [List.length_append, List.length_cons, List.length_nil]
      omega
    · exact ⟨Or.inr (Or.inr ⟨hr, rfl⟩), hin⟩
    · exact ⟨Or.inr (Or.inl ⟨hr, rfl⟩), hin⟩
  · intro r b' h
    rcases mem_publishOutbound hcc h with ⟨hr, rfl, hlt⟩ | ⟨hr, rfl⟩ | ⟨hr, rfl⟩
    · refine ⟨Or.inl ⟨hr, rfl⟩, ?_⟩
      simp only [List.length_append, List.length_cons, List.length_nil]
      omega
    · exact ⟨Or.inr (Or.inr ⟨hr, rfl⟩), hout⟩
    · exact ⟨Or.inr (Or.inl ⟨hr, rfl⟩), hout⟩

/-- Witness for C1: a concrete reachable state (one successful publish, then
the cancellation signal) satisfies the queue bounds. -/
theorem C1_publish_trichotomy_witness :
    ({ busNew 2 with inbound := [{}], cancelled := true } : MessageBus).inbound.length ≤ 2 ∧
    ({ busNew 2 with inbound := [{}], cancelled := true } : MessageBus).outbound.length ≤ 2 := by
  have hreach : BusReachable 2 { busNew 2 with inbound := [{}], cancelled := true } := by
    have s1 : BusStep (busNew 2) { busNew 2 with inbound := [({} : InboundMessage)] } :=
      BusStep.pubIn {} .ok (by decide)
    have s2 : BusStep { busNew 2 with inbound := [({} : InboundMessage)] }
        { { busNew 2 with inbound := [({} : InboundMessage)] } with cancelled := true } :=
      BusStep.cancelCtx
    exact BusReachable.step (BusReachable.step BusReachable.init s1) s2
  have h := C1_publish_trichotomy hreach {} {}
  exact ⟨h.1, h.2.1⟩

/-- C2: the claim that `Close` is idempotent fails on the code — the second
`Close` call reaches `close(b.inbound)` on an already-closed Go channel and
panics (the spec requires double-close not to panic). -/
theorem C2_doubleClose_panics :
    closeBus (busNew 16) = .ok { busNew 16 with cancelled := true, chansClosed := true } ∧
    closeBus { busNew 16 with cancelled := true, chansClosed := true } = .panicked :=
  ⟨rfl, rfl⟩

/- ===================== Tool registry lemmas and claim C8 ===================== -/

theorem lookupTool_swapExec (r : List Tool) (name : String)
    (g : Params → Except String String) :
    lookupTool (swapExec r name g) name =
      (lookupTool r name).map (fun t => { t with execute := g }) := by
  unfold lookupTool swapExec
  rw [List.find?_map]
  have hpf : ((fun t => t.name == name) ∘
      (fun t => if t.name == name then { t with execute := g } else t)) =
      fun t : Tool => t.name == name := by
    funext t
    by_cases hc : t.name = name <;> simp [hc]
  rw [hpf]
  cases hfind : r.find? (fun t => t.name == name) with
  | none => rfl
  | some t0 =>
    have hp := List.find?_some hfind
    simp only [Option.map_some']
    rw [if_pos hp]

/-- C8: `ToolRegistry.Execute` always produces a plain string and never
propagates a typed error: an unregistered name yields the textual not-found
error, a parameter-validation failure yields the textual violation list
without consulting the executor (swapping the executor does not change the
result), and an executor error is rendered as a textual error result. -/
theorem C8_registry_textual_errors (r : List Tool) (name : String) (ps : Params) :
    (lookupTool r name = none → registryExecute r name ps = toolNotFoundMsg name) ∧
    (∀ t, lookupTool r name = some t → (t.validateParams ps).length > 0 →
      registryExecute r name ps = invalidParamsMsg name (t.validateParams ps) ∧
      ∀ g, registryExecute (swapExec r name g) name ps
            = invalidParamsMsg name (t.validateParams ps)) ∧
    (∀ t e, lookupTool r name = some t → t.validateParams ps = [] →
      t.execute ps = .error e → registryExecute r name ps = execErrorMsg name e) ∧
    (∀ t out, lookupTool r name = some t → t.validateParams ps = [] →
      t.execute ps = .ok out → registryExecute r name ps = out) := by
  refine ⟨?_, ?_, ?_, ?_⟩
  · intro h
    unfold registryExecute
    rw [h]
  · intro t ht hv
    constructor
    · unfold registryExecute
      rw [ht]
      dsimp only
      rw [if_pos hv]
    · intro g
      unfold registryExecute
      rw [lookupTool_swapExec, ht]
      simp only [Option.map_some']
      rw [if_pos hv]
  · intro t e ht hv he
    unfold registryExecute
    rw [ht]
    dsimp only
    rw [hv, he]
    simp
  · intro t out ht hv he
    unfold registryExecute
    rw [ht]
    dsimp only
    rw [hv, he]
    simp

/-- Witness for C8: a concrete one-tool registry exercising all three error
renderings and the success path of `Execute`. -/
theorem C8_registry_textual_errors_witness :
    registryExecute [toolT0] "nope" [] = toolNotFoundMsg "nope" ∧
    registryExecute [toolT0] "t" [] = invalidParamsMsg "t" ["missing required parameter: x"] ∧
    registryExecute (swapExec [toolT0] "t" (fun _ => .ok "changed")) "t" []
      = invalidParamsMsg "t" ["missing required parameter: x"] ∧
    registryExecute [toolT0] "t" [("x", .num 1)] = execErrorMsg "t" "boom" := by
  refine ⟨(C8_registry_textual_errors [toolT0] "nope" []).1 rfl, ?_, ?_, ?_⟩
  · exact ((C8_registry_textual_errors [toolT0] "t" []).2.1 toolT0 rfl (by decide)).1
  · exact ((C8_registry_textual_errors [toolT0] "t" []).2.1 toolT0 rfl (by decide)).2
      (fun _ => .ok "changed")
  · exact (C8_registry_textual_errors [toolT0] "t" [("x", .num 1)]).2.2.1 toolT0 "boom"
      rfl rfl rfl

/- ===================== Session loader: claims C4 and C10 ===================== -/

theorem loadLoop_err_stuck (parseTime : String → Int) :
    ∀ fuel (c : JChunk) (cs : List JChunk) (st : LoadState),
      loadLoop parseTime fuel { rest := c :: cs, err := true } st = none := by
  intro fuel
  induction fuel with
  | zero => intro c cs st; rfl
  | succ n ih => intro c cs st; exact ih c cs st

theorem loadLoop_bad_head (parseTime : String → Int) (cs : List JChunk) :
    ∀ fuel (st : LoadState),
      loadLoop parseTime fuel { rest := .bad :: cs, err := false } st = none := by
  intro fuel st
  cases fuel with
  | zero => rfl
  | succ n => exact loadLoop_err_stuck parseTime n .bad cs st

/-- C4: the claim fails on the code: a malformed (non-JSON-decodable) line is
not skipped and does not produce an empty session — `json.Decoder` caches the
syntax error without consuming the malformed bytes, so `decoder.More()` keeps
returning true while every later `Decode` returns the cached error, and the
read loop of `SessionManager.load` spins forever.  On a file whose first line
is malformed, no fuel bound makes the loop terminate, so neither `load` nor
`GetOrCreate` ever returns. -/
theorem C4_malformed_line_spins (parseTime : String → Int) (key : String) (now : Int)
    (cs : List JChunk) :
    (∀ fuel st, loadLoop parseTime fuel { rest := .bad :: cs, err := false } st = none) ∧
    (∀ fuel, loadWithFuel parseTime key now (.bad :: cs) fuel = none) ∧
    (∀ fuel, getOrCreate parseTime key now none (some (.bad :: cs)) fuel = none) := by
  refine ⟨loadLoop_bad_head parseTime cs, ?_, ?_⟩
  · intro fuel
    unfold loadWithFuel
    rw [loadLoop_bad_head]
  · intro fuel
    unfold getOrCreate loadWithFuel
    dsimp only
    rw [loadLoop_bad_head]

/-- C10: the claim fails on the code: a first line that is valid JSON tagged
with `_type:"metadata"` but whose `metadata` field is absent (or not a JSON
object) crashes the loader — the unchecked interface assertion
`data["metadata"].(map[string]interface\x7b\x7d)` panics — so `GetOrCreate`
propagates a panic instead of yielding a session. -/
theorem C10_metadata_assertion_panics :
    getOrCreate (fun _ => 0) "cli:direct" 0 none
        (some [JChunk.val (.obj [("_type", .str "metadata"), ("key", .str "cli:direct")])]) 2
      = some .panicked ∧
    getOrCreate (fun _ => 0) "cli:direct" 0 none
        (some [JChunk.val (.obj [("_type", .str "metadata"), ("metadata", .null)])]) 2
      = some .panicked :=
  ⟨rfl, rfl⟩

/- ===================== Memory consolidation: claim C3 ===================== -/

/-- C3 counterexample: with a four-message session, `keepCount = 2` and an LLM
response carrying no tool calls, `consolidateMemory` still advances
`last_consolidated` from 0 to 2 and persists the session, contradicting the
claim that the cursor is advanced if and only if the response contains a
`save_memory` tool call. -/
theorem C3_counterexample :
    hasToolCalls respNoTool = false ∧
    sessC3.lastConsolidated = 0 ∧
    (consolidateMemory [] (.ok respNoTool) sessC3 2).1.lastConsolidated = 2 ∧
    (consolidateMemory [] (.ok respNoTool) sessC3 2).2.1 = true :=
  ⟨rfl, rfl, rfl, rfl⟩

/-- C3 (amended): when there is something to consolidate, the cursor is
advanced to the end of the consolidated slice and the session persisted
whenever the `provider.Chat` call succeeds — regardless of whether the
response calls `save_memory`, which controls only whether the memory files are
written — and nothing is advanced or persisted when the call fails. -/
theorem C3_cursor_advances_iff_chat_succeeds (reg : List Tool)
    (chat : Except String ChatResponse) (sess : Session) (keepCount : Nat)
    (h : sess.lastConsolidated < min (sess.lastConsolidated + keepCount) sess.messages.length) :
    (∀ e, chat = .error e → consolidateMemory reg chat sess keepCount = (sess, false, [])) ∧
    (∀ resp, chat = .ok resp →
      consolidateMemory reg chat sess keepCount =
        ({ sess with lastConsolidated := min (sess.lastConsolidated + keepCount) sess.messages.length },
         true,
         (resp.toolCalls.filter (fun tc => tc.name == "save_memory")).map
           (fun tc => registryExecute reg tc.name tc.arguments))) := by
  have hmin : (if sess.lastConsolidated + keepCount > sess.messages.length
      then sess.messages.length else sess.lastConsolidated + keepCount)
      = min (sess.lastConsolidated + keepCount) sess.messages.length := by
    split <;> omega
  have hnotge : ¬ (sess.lastConsolidated ≥
      min (sess.lastConsolidated + keepCount) sess.messages.length) := by omega
  have hold : ((sess.messages.drop sess.lastConsolidated).take
      (min (sess.lastConsolidated + keepCount) sess.messages.length - sess.lastConsolidated)).length ≠ 0 := by
    rw [List.length_take, List.length_drop]
    omega
  constructor
  · intro e he
    subst he
    unfold consolidateMemory
    dsimp only
    rw [hmin, if_neg hnotge, if_neg hold]
  · intro resp hr
    subst hr
    unfold consolidateMemory
    dsimp only
    rw [hmin, if_neg hnotge, if_neg hold]
    by_cases htc : hasToolCalls resp
    · rw [if_pos htc]
    · rw [if_neg htc]
      have : resp.toolCalls = [] := by
        unfold hasToolCalls at htc
        simpa using htc
      rw [this]
      rfl

/-- Witness for C3 (amended) at a successful chat call whose response carries
one `save_memory` tool call. -/
theorem C3_cursor_advances_witness :
    consolidateMemory [] (.ok respSave) sessC3 2 =
      ({ sessC3 with lastConsolidated := 2 }, true,
       [registryExecute [] "save_memory" saveArgsW]) := by
  have h := (C3_cursor_advances_iff_chat_succeeds [] (.ok respSave) sessC3 2
    (by decide)).2 respSave rfl
  exact h

/- ===================== Subagent manager: claim C9 ===================== -/

/-- C9: the claim fails on the code: when the background loop terminates with
an LLM error, `runSubagent` announces the failure and returns before the
cleanup, so the task stays in the by-id running-task map; the success path
does delete it, and `CancelTask` deletes it on cancellation. -/
theorem C9_llm_error_keeps_task :
    (runSubagent subEnvErr "1a2b3c4d" "calc" "compute X" "cli" "direct" 0
        [("1a2b3c4d", taskA)]).1 = [("1a2b3c4d", taskA)] ∧
    (runSubagent subEnvErr "1a2b3c4d" "calc" "compute X" "cli" "direct" 0
        [("1a2b3c4d", taskA)]).2 =
      announceResult "calc" "compute X" "Error: connection refused" "cli" "direct" "error" 0 ∧
    (runSubagent subEnvOk "1a2b3c4d" "calc" "compute X" "cli" "direct" 0
        [("1a2b3c4d", taskA)]).1 = [] ∧
    (cancelTask [("1a2b3c4d", taskA)] "1a2b3c4d").1 = [] :=
  ⟨rfl, rfl, rfl, rfl⟩

/- ===================== Agent loop: claim C6 ===================== -/

/-- C6: for every processed non-command user turn that completes, the session
is persisted with exactly two new entries appended — the user's input with
role `user` followed by the assistant's final reply with role `assistant`;
tool-result messages live only in the provider message array and are never
appended to the session; and an empty final reply is replaced by the generic
non-empty sentence before being stored and sent. -/
theorem C6_turn_appends_exactly_user_and_assistant (env : AgentEnv) (msg : InboundMessage)
    (out : OutboundMessage) (saves : List Session)
    (hch : msg.channel ≠ "system") (hnew : msg.content ≠ "/new") (hhelp : msg.content ≠ "/help")
    (h : processMessage env msg = .ok (out, saves)) :
    ∃ raw,
      runAgentIter env env.maxIterations
        (env.buildMessages
          (getHistory (env.getSession (if msg.sessionKey = "" then msg.channel ++ ":" ++ msg.chatID else msg.sessionKey)) env.memoryWindow)
          msg.content msg.channel msg.chatID msg.media) = .ok raw ∧
      out.content = (if raw = "" then genericNoResponse else raw) ∧
      out.content ≠ "" ∧
      saves = [addMessage (addMessage (env.getSession (if msg.sessionKey = "" then msg.channel ++ ":" ++ msg.chatID else msg.sessionKey)) "user" msg.content [] env.nowStr env.nowT) "assistant" out.content [] env.nowStr env.nowT] ∧
      saves.map Session.messages =
        [(env.getSession (if msg.sessionKey = "" then msg.channel ++ ":" ++ msg.chatID else msg.sessionKey)).messages ++
          [{ role := "user", content := msg.content, timestamp := env.nowStr },
           { role := "assistant", content := out.content, timestamp := env.nowStr }]] := by
  unfold processMessage at h
  rw [if_neg hch] at h
  dsimp only at h
  rw [if_neg hnew, if_neg hhelp] at h
  cases hit : runAgentIter env env.maxIterations
      (env.buildMessages
        (getHistory (env.getSession (if msg.sessionKey = "" then msg.channel ++ ":" ++ msg.chatID else msg.sessionKey)) env.memoryWindow)
        msg.content msg.channel msg.chatID msg.media) with
  | error e =>
    rw [hit] at h
    exact absurd h (by simp)
  | ok raw =>
    rw [hit] at h
    dsimp only at h
    rw [Except.ok.injEq, Prod.mk.injEq] at h
    obtain ⟨hout, hsaves⟩ := h
    refine ⟨raw, rfl, ?_, ?_, ?_, ?_⟩
    · rw [← hout]
    · rw [← hout]
      show (if raw = "" then genericNoResponse else raw) ≠ ""
      by_cases hr : raw = ""
      · rw [if_pos hr]
        decide
      · rw [if_neg hr]
        exact hr
    · rw [← hsaves, ← hout]
    · rw [← hsaves, ← hout]
      simp [addMessage, List.append_assoc]

/-- Witness for C6: the concrete single-shot turn `2+2?` on the CLI. -/
theorem C6_turn_appends_witness :
    ∃ raw,
      runAgentIter envC6 envC6.maxIterations
        (envC6.buildMessages
          (getHistory (envC6.getSession (if msgC6.sessionKey = "" then msgC6.channel ++ ":" ++ msgC6.chatID else msgC6.sessionKey)) envC6.memoryWindow)
          msgC6.content msgC6.channel msgC6.chatID msgC6.media) = .ok raw ∧
      ({ channel := "cli", chatID := "direct", content := "4" } : OutboundMessage).content
        = (if raw = "" then genericNoResponse else raw) ∧
      ({ channel := "cli", chatID := "direct", content := "4" } : OutboundMessage).content ≠ "" ∧
      [({ key := "cli:direct",
          messages := [{ role := "user", content := "2+2?", timestamp := "2026-10-11T12:00:00Z" },
                       { role := "assistant", content := "4", timestamp := "2026-10-11T12:00:00Z" }],
          createdAt := 0, updatedAt := 100 } : Session)] =
        [addMessage (addMessage (envC6.getSession (if msgC6.sessionKey = "" then msgC6.channel ++ ":" ++ msgC6.chatID else msgC6.sessionKey)) "user" msgC6.content [] envC6.nowStr envC6.nowT) "assistant" ({ channel := "cli", chatID := "direct", content := "4" } : OutboundMessage).content [] envC6.nowStr envC6.nowT] ∧
      [({ key := "cli:direct",
          messages := [{ role := "user", content := "2+2?", timestamp := "2026-10-11T12:00:00Z" },
                       { role := "assistant", content := "4", timestamp := "2026-10-11T12:00:00Z" }],
          createdAt := 0, updatedAt := 100 } : Session)].map Session.messages =
        [(envC6.getSession (if msgC6.sessionKey = "" then msgC6.channel ++ ":" ++ msgC6.chatID else msgC6.sessionKey)).messages ++
          [{ role := "user", content := msgC6.content, timestamp := envC6.nowStr },
           { role := "assistant", content := ({ channel := "cli", chatID := "direct", content := "4" } : OutboundMessage).content, timestamp := envC6.nowStr }]] :=
  C6_turn_appends_exactly_user_and_assistant envC6 msgC6
    { channel := "cli", chatID := "direct", content := "4" }
    [{ key := "cli:direct",
       messages := [{ role := "user", content := "2+2?", timestamp := "2026-10-11T12:00:00Z" },
                    { role := "assistant", content := "4", timestamp := "2026-10-11T12:00:00Z" }],
       createdAt := 0, updatedAt := 100 }]
    (by decide) (by decide) (by decide) rfl

/- ===================== Heap lemmas (container/heap on the job heap) ===================== -/

theorem jobLessAt_true_iff {l : List Job} {i j : Nat} :
    jobLessAt l i j = true ↔ nrAt l i < nrAt l j := by
  unfold jobLessAt nrAt
  exact decide_eq_true_iff

theorem jobLessAt_false_iff {l : List Job} {i j : Nat} :
    jobLessAt l i j = false ↔ nrAt l j ≤ nrAt l i := by
  unfold jobLessAt nrAt
  rw [decide_eq_false_iff_not]
  exact not_lt

theorem minChildIdx_spec {l : List Job} {i n : Nat} (h1 : 2*i+1 < n) :
    HeapEdge i (minChildIdx l i n) ∧ minChildIdx l i n < n ∧ i < minChildIdx l i n ∧
    ∀ c, HeapEdge i c → c < n → nrAt l (minChildIdx l i n) ≤ nrAt l c := by
  unfold minChildIdx
  split
  case isTrue hcond =>
    rw [Bool.and_eq_true, decide_eq_true_iff, jobLessAt_true_iff] at hcond
    obtain ⟨hlt2, hless⟩ := hcond
    refine ⟨Or.inr rfl, hlt2, by omega, ?_⟩
    intro c hc hcn
    rcases hc with rfl | rfl
    · exact hless.le
    · exact le_refl _
  case isFalse hcond =>
    refine ⟨Or.inl rfl, h1, by omega, ?_⟩
    intro c hc hcn
    rcases hc with rfl | rfl
    · exact le_refl _
    · rcases Bool.eq_false_or_eq_true (jobLessAt l (2*i+2) (2*i+1)) with hb | hb
      · exact absurd (by rw [Bool.and_eq_true, decide_eq_true_iff]; exact ⟨hcn, hb⟩) hcond
      · exact jobLessAt_false_iff.mp hb

theorem heapDown_length : ∀ (fuel : Nat) (l : List Job) (i n : Nat),
    (heapDown fuel l i n).length = l.length := by
  intro fuel
  induction fuel with
  | zero => intro l i n; rfl
  | succ m ih =>
    intro l i n
    unfold heapDown
    dsimp only
    split
    · split
      · rw [ih, swapL_length]
      · rfl
    · rfl

theorem heapDown_stable : ∀ (fuel : Nat) (l : List Job) (i n k : Nat), n ≤ k →
    (heapDown fuel l i n).getD k default = l.getD k default := by
  intro fuel
  induction fuel with
  | zero => intro l i n k hk; rfl
  | succ m ih =>
    intro l i n k hk
    unfold heapDown
    dsimp only
    split
    case isTrue h1 =>
      split
      case isTrue h2 =>
        obtain ⟨hedge, hjn, hij, hmin⟩ := minChildIdx_spec (l := l) h1
        rw [ih _ _ _ _ hk, getD_swapL_other (by omega) (by omega)]
      case isFalse h2 => rfl
    case isFalse h1 => rfl

theorem heapDown_perm : ∀ (fuel : Nat) (l : List Job) (i n : Nat), n ≤ l.length →
    (heapDown fuel l i n).Perm l := by
  intro fuel
  induction fuel with
  | zero => intro l i n _; exact List.Perm.refl _
  | succ m ih =>
    intro l i n hn
    unfold heapDown
    dsimp only
    split
    case isTrue h1 =>
      split
      case isTrue h2 =>
        obtain ⟨hedge, hjn, hij, hmin⟩ := minChildIdx_spec (l := l) h1
        exact (ih _ _ _ (by rw [swapL_length]; exact hn)).trans
          (swapL_perm (by omega) (by omega))
      case isFalse h2 => exact List.Perm.refl _
    case isFalse h1 => exact List.Perm.refl _

theorem heapDown_heap : ∀ (fuel : Nat) (l : List Job) (i n : Nat), n ≤ fuel + i →
    n ≤ l.length → DownPre l i n → HeapUpTo (heapDown fuel l i n) n := by
  intro fuel
  induction fuel with
  | zero =>
    intro l i n hfuel hlen hpre
    intro p c hedge hcn
    by_cases hpi : p = i
    · subst hpi
      exfalso
      unfold HeapEdge at hedge
      omega
    · exact hpre.1 p c hedge hcn hpi
  | succ m ih =>
    intro l i n hfuel hlen hpre
    unfold heapDown
    dsimp only
    split
    case isTrue h1 =>
      obtain ⟨hedge_ij, hjn, hij, hmin⟩ := minChildIdx_spec (l := l) h1
      split
      case isTrue h2 =>
        rw [jobLessAt_true_iff] at h2
        refine ih _ _ _ (by omega) (by rw [swapL_length]; exact hlen) ?_
        set j := minChildIdx l i n with hjdef
        have hilen : i < l.length := by omega
        have hjlen : j < l.length := by omega
        have hmi : nrAt (swapL l i j) i = nrAt l j := by
          unfold nrAt
          rw [getD_swapL_fst hilen (by omega)]
        have hmj : nrAt (swapL l i j) j = nrAt l i := by
          unfold nrAt
          rw [getD_swapL_snd hjlen]
        have hmo : ∀ k, k ≠ i → k ≠ j → nrAt (swapL l i j) k = nrAt l k := by
          intro k hki hkj
          unfold nrAt
          rw [getD_swapL_other hki hkj]
        unfold DownPre
        constructor
        · intro p c hpc hcn hpj
          by_cases hpi : p = i
          · rw [hpi] at hpc ⊢
            by_cases hcj : c = j
            · rw [hcj, hmi, hmj]
              exact h2.le
            · have hci : c ≠ i := by unfold HeapEdge at hpc; omega
              rw [hmi, hmo c hci hcj]
              exact hmin c hpc hcn
          · by_cases hci : c = i
            · rw [hci] at hpc ⊢
              have hi1 : 1 ≤ i := by unfold HeapEdge at hpc; omega
              have hp2 : p = (i-1)/2 := by unfold HeapEdge at hpc; omega
              have hpj' : p ≠ j := by omega
              rw [hmo p hpi hpj', hmi, hp2]
              exact hpre.2 j hedge_ij hjn (by omega)
            · by_cases hcj : c = j
              · exfalso
                rw [hcj] at hpc
                unfold HeapEdge at hpc hedge_ij
                omega
              · rw [hmo p hpi hpj, hmo c hci hcj]
                exact hpre.1 p c hpc hcn hpi
        · intro c hjc hcn hj0
          have hpar : (j-1)/2 = i := by unfold HeapEdge at hedge_ij; omega
          have hcne : c ≠ i ∧ c ≠ j := by unfold HeapEdge at hjc; omega
          rw [hpar, hmi, hmo c hcne.1 hcne.2]
          exact hpre.1 j c hjc hcn (by omega)
      case isFalse h2 =>
        have h2' : nrAt l i ≤ nrAt l (minChildIdx l i n) := by
          rcases Bool.eq_false_or_eq_true (jobLessAt l (minChildIdx l i n) i) with hb | hb
          · exact absurd hb h2
          · exact jobLessAt_false_iff.mp hb
        intro p c hpc hcn
        by_cases hpi : p = i
        · subst hpi
          exact le_trans h2' (hmin c hpc hcn)
        · exact hpre.1 p c hpc hcn hpi
    case isFalse h1 =>
      intro p c hpc hcn
      by_cases hpi : p = i
      · subst hpi
        exfalso
        unfold HeapEdge at hpc
        omega
      · exact hpre.1 p c hpc hcn hpi

theorem heapUp_length : ∀ (fuel : Nat) (l : List Job) (j : Nat),
    (heapUp fuel l j).length = l.length := by
  intro fuel
  induction fuel with
  | zero => intro l j; rfl
  | succ m ih =>
    intro l j
    unfold heapUp
    dsimp only
    split
    · rfl
    · rw [ih, swapL_length]

theorem heapUp_perm : ∀ (fuel : Nat) (l : List Job) (j : Nat), j < l.length →
    (heapUp fuel l j).Perm l := by
  intro fuel
  induction fuel with
  | zero => intro l j _; exact List.Perm.refl _
  | succ m ih =>
    intro l j hj
    unfold heapUp
    dsimp only
    split
    · exact List.Perm.refl _
    · refine (ih _ _ ?_).trans (swapL_perm (by omega) hj)
      rw [swapL_length]
      omega

theorem heapUp_heap : ∀ (fuel : Nat) (l : List Job) (j : Nat), j < fuel → j < l.length →
    UpPre l j l.length → HeapUpTo (heapUp fuel l j) l.length := by
  intro fuel
  induction fuel with
  | zero => intro l j hj _ _; omega
  | succ m ih =>
    intro l j hjf hjl hpre
    unfold heapUp
    dsimp only
    split
    case isTrue hstop =>
      rw [Bool.or_eq_true] at hstop
      intro p c hpc hcn
      by_cases hcj : c = j
      · rcases hstop with hij | hnl
        · rw [beq_iff_eq] at hij
          exfalso
          rw [hcj] at hpc
          unfold HeapEdge at hpc
          omega
        · rw [Bool.not_eq_true', jobLessAt_false_iff] at hnl
          have hp2 : p = (j-1)/2 := by
            rw [hcj] at hpc
            unfold HeapEdge at hpc
            omega
          rw [hcj, hp2]
          exact hnl
      · exact hpre.1 p c hpc hcn hcj
    case isFalse hgo =>
      have hij' : (j-1)/2 ≠ j := by
        intro hcontra
        exact hgo (by rw [Bool.or_eq_true, beq_iff_eq]; exact Or.inl hcontra)
      have hless : jobLessAt l j ((j-1)/2) = true := by
        rcases Bool.eq_false_or_eq_true (jobLessAt l j ((j-1)/2)) with hb | hb
        · exact hb
        · exfalso
          exact hgo (by rw [Bool.or_eq_true]; right; rw [hb]; rfl)
      rw [jobLessAt_true_iff] at hless
      have hj1 : 1 ≤ j := by omega
      have hij : (j-1)/2 < j := by omega
      have hedge_ij : HeapEdge ((j-1)/2) j := by unfold HeapEdge; omega
      set i := (j-1)/2 with hidef
      have hilen : i < l.length := by omega
      have hmi : nrAt (swapL l i j) i = nrAt l j := by
        unfold nrAt
        rw [getD_swapL_fst hilen (by omega)]
      have hmj : nrAt (swapL l i j) j = nrAt l i := by
        unfold nrAt
        rw [getD_swapL_snd hjl]
      have hmo : ∀ k, k ≠ i → k ≠ j → nrAt (swapL l i j) k = nrAt l k := by
        intro k hki hkj
        unfold nrAt
        rw [getD_swapL_other hki hkj]
      have hpre' : UpPre (swapL l i j) i (swapL l i j).length := by
        rw [swapL_length]
        unfold UpPre
        constructor
        · intro p c hpc hcn hci
          by_cases hcj : c = j
          · have hp2 : p = i := by
              rw [hcj] at hpc
              rw [hidef]
              unfold HeapEdge at hpc
              omega
            rw [hcj, hp2, hmi, hmj]
            exact hless.le
          · by_cases hpi : p = i
            · rw [hpi] at hpc ⊢
              rw [hmi, hmo c hci hcj]
              exact hless.le.trans (hpre.1 i c hpc hcn hcj)
            · by_cases hpj : p = j
              · rw [hpj] at hpc ⊢
                rw [hmj, hmo c hci hcj]
                exact hpre.2 c hpc hcn
              · rw [hmo p hpi hpj, hmo c hci hcj]
                exact hpre.1 p c hpc hcn hcj
        · intro c hic hcn
          by_cases hi0 : i = 0
          · have hg : (i-1)/2 = i := by omega
            rw [hg, hmi]
            by_cases hcj : c = j
            · rw [hcj, hmj]
              exact hless.le
            · have hci : c ≠ i := by unfold HeapEdge at hic; omega
              rw [hmo c hci hcj]
              exact hless.le.trans (hpre.1 i c hic hcn hcj)
          · have hgi : (i-1)/2 ≠ i := by omega
            have hgj : (i-1)/2 ≠ j := by omega
            have hedge_gi : HeapEdge ((i-1)/2) i := by unfold HeapEdge; omega
            rw [hmo _ hgi hgj]
            by_cases hcj : c = j
            · rw [hcj, hmj]
              exact hpre.1 ((i-1)/2) i hedge_gi (by omega) (by omega)
            · have hci : c ≠ i := by unfold HeapEdge at hic; omega
              rw [hmo c hci hcj]
              exact (hpre.1 ((i-1)/2) i hedge_gi (by omega) (by omega)).trans
                (hpre.1 i c hic hcn hcj)
      have hres := ih (swapL l i j) i (by omega) (by rw [swapL_length]; omega) hpre'
      rw [swapL_length] at hres
      exact hres

theorem heapRoot_min {l : List Job} {n : Nat} (hh : HeapUpTo l n) :
    ∀ k, k < n → nrAt l 0 ≤ nrAt l k := by
  intro k
  induction k using Nat.strong_induction_on with
  | _ k ih =>
    intro hk
    rcases Nat.eq_zero_or_pos k with rfl | hpos
    · exact le_refl _
    · have hpar : HeapEdge ((k-1)/2) k := by unfold HeapEdge; omega
      exact le_trans (ih ((k-1)/2) (by omega) (by omega)) (hh _ _ hpar hk)

theorem heapPopList_spec {l : List Job} (hne : l ≠ []) (hh : IsMinHeap l) :
    (l.getD 0 default :: heapPopList l).Perm l ∧
    IsMinHeap (heapPopList l) ∧
    (heapPopList l).length = l.length - 1 := by
  have hlen1 : 1 ≤ l.length := by
    rcases l with _ | ⟨a, t⟩
    · exact absurd rfl hne
    · simp
  set n := l.length - 1 with hn
  set l1 := swapL l 0 n with hl1
  set l2 := heapDown n l1 0 n with hl2
  have hlen_l1 : l1.length = l.length := swapL_length l 0 n
  have hlen_l2 : l2.length = l.length := by
    rw [hl2, heapDown_length, hlen_l1]
  have hperm : l2.Perm l := by
    refine (heapDown_perm n l1 0 n (by omega)).trans ?_
    rw [hl1]
    exact swapL_perm (by omega) (by omega)
  have hlast : l2.getD n default = l.getD 0 default := by
    rw [hl2, heapDown_stable n l1 0 n n (le_refl n), hl1]
    rcases Nat.eq_zero_or_pos n with hz | hp
    · rw [hz]
      unfold swapL
      rw [List.set_set, set_getD_self (by omega)]
    · exact getD_swapL_snd (by omega)
  have hpop_eq : heapPopList l = l2.take n := by
    unfold heapPopList
    dsimp only
  have hpoplen : (heapPopList l).length = n := by
    rw [hpop_eq, List.length_take, hlen_l2]
    omega
  have hheap2 : HeapUpTo l2 n := by
    refine heapDown_heap n l1 0 n (by omega) (by omega) ?_
    constructor
    · intro p c hpc hcn hp0
      have hc0 : c ≠ 0 := by unfold HeapEdge at hpc; omega
      have hcnn : c ≠ n := by omega
      have hpn : p ≠ n := by
        unfold HeapEdge at hpc
        omega
      unfold nrAt
      rw [hl1, getD_swapL_other hp0 hpn, getD_swapL_other hc0 hcnn]
      exact hh p c hpc (by omega)
    · intro c _ _ h0
      omega
  have hdrop : l2.drop n = [l2.getD n default] := by
    have h1 : l2.drop n = l2[n] :: l2.drop (n+1) := List.drop_eq_getElem_cons (by omega)
    rw [h1, List.drop_eq_nil_of_le (by omega), getD_eq_getElem (by omega)]
  refine ⟨?_, ?_, ?_⟩
  · rw [hpop_eq, ← hlast]
    have hsplit : l2.take n ++ [l2.getD n default] = l2 := by
      conv_rhs => rw [← List.take_append_drop n l2]
      rw [hdrop]
    have h1 : (l2.getD n default :: l2.take n).Perm (l2.take n ++ [l2.getD n default]) :=
      (List.perm_append_singleton _ _).symm
    rw [hsplit] at h1
    exact h1.trans hperm
  · unfold IsMinHeap
    rw [hpop_eq, List.length_take]
    intro p c hpc hcn
    have hcn' : c < n := by omega
    have hpn' : p < n := by unfold HeapEdge at hpc; omega
    unfold nrAt
    rw [List.getD_eq_getElem?_getD, List.getD_eq_getElem?_getD,
        List.getElem?_take_of_lt hpn', List.getElem?_take_of_lt hcn',
        ← List.getD_eq_getElem?_getD, ← List.getD_eq_getElem?_getD]
    exact hheap2 p c hpc hcn'
  · exact hpoplen

theorem heapPush_spec (l : List Job) (x : Job) (hh : IsMinHeap l) :
    (heapPush l x).Perm (x :: l) ∧ IsMinHeap (heapPush l x) ∧
    (heapPush l x).length = l.length + 1 := by
  have hlen : (heapPush l x).length = l.length + 1 := by
    unfold heapPush
    rw [heapUp_length]
    simp
  have hperm : (heapPush l x).Perm (x :: l) := by
    unfold heapPush
    refine (heapUp_perm _ _ _ (by simp)).trans ?_
    exact List.perm_append_singleton x l
  refine ⟨hperm, ?_, hlen⟩
  have hpre : UpPre (l ++ [x]) l.length (l ++ [x]).length := by
    constructor
    · intro p c hpc hcn hcl
      have hcl' : c < l.length := by
        simp only [List.length_append, List.length_cons, List.length_nil] at hcn
        omega
      have hpl' : p < l.length := by unfold HeapEdge at hpc; omega
      unfold nrAt
      rw [List.getD_append _ _ _ _ hpl', List.getD_append _ _ _ _ hcl']
      exact hh p c hpc hcl'
    · intro c hpc hcn
      exfalso
      unfold HeapEdge at hpc
      simp only [List.length_append, List.length_cons, List.length_nil] at hcn
      omega
  have hup := heapUp_heap (l.length + 1) (l ++ [x]) l.length (by omega) (by simp) hpre
  have hlen2 : (l ++ [x]).length = l.length + 1 := by simp
  rw [hlen2] at hup
  unfold IsMinHeap
  rw [hlen]
  unfold heapPush
  exact hup

/- ===================== Scheduler loop lemmas ===================== -/

theorem after_true_iff {t now : GoTime} : t.after now = true ↔ now.unixMs < t.unixMs := by
  unfold GoTime.after
  exact decide_eq_true_iff

theorem dueB_true_iff {now : GoTime} {j : Job} : dueB now j = true ↔ DueP now j := by
  unfold dueB DueP GoTime.after
  rw [Bool.not_eq_true', decide_eq_false_iff_not]
  exact not_lt

theorem recompute_after {env : CronEnv} {now nowR : GoTime} (Hclk : now.unixMs < nowR.unixMs)
    (Henv : CronEnvStrict env) {j : Job} (hkind : j.schedule.kind ≠ "at") (hev : EveryOk j) :
    now.unixMs < (calculateNextRun env nowR j.schedule).unixMs := by
  unfold calculateNextRun
  by_cases h1 : j.schedule.kind = "every"
  · rw [if_pos h1]
    unfold GoTime.addMs
    have := hev h1
    dsimp only
    omega
  · rw [if_neg h1, if_neg hkind]
    by_cases h3 : j.schedule.kind = "cron"
    · rw [if_pos h3]
      unfold calculateCronNextRun
      cases henv : env.parse j.schedule.cronExpr with
      | none =>
        unfold GoTime.addMs
        dsimp only
        omega
      | some s =>
        dsimp only
        have hbase : ∀ bt : GoTime, bt.unixMs = nowR.unixMs →
            now.unixMs < (env.next s bt).unixMs := by
          intro bt hbt
          have := Henv s bt
          omega
        split
        · cases env.loadLocation j.schedule.tz with
          | none => exact hbase nowR rfl
          | some loc => exact hbase (nowR.inLoc loc) rfl
        · exact hbase nowR rfl
    · rw [if_neg h3]
      omega

theorem dueCount_perm {now : GoTime} {h1 h2 : List Job} (hp : h1.Perm h2) :
    dueCount now h1 = dueCount now h2 := by
  unfold dueCount
  exact (hp.filter _).length_eq

theorem dueCount_cons_due {now : GoTime} {j : Job} {t : List Job} (hd : DueP now j) :
    dueCount now (j :: t) = dueCount now t + 1 := by
  unfold dueCount
  rw [List.filter_cons_of_pos (dueB_true_iff.mpr hd)]
  rfl

theorem dueCount_cons_notdue {now : GoTime} {j : Job} {t : List Job} (hd : ¬ DueP now j) :
    dueCount now (j :: t) = dueCount now t := by
  unfold dueCount
  rw [List.filter_cons_of_neg (fun hb => hd (dueB_true_iff.mp hb))]

theorem isSingleShot_false_parts {j : Job} (h : ¬ isSingleShot j = true) :
    j.schedule.kind ≠ "at" := by
  unfold isSingleShot at h
  intro hk
  exact h (by rw [Bool.or_eq_true, beq_iff_eq]; exact Or.inr hk)

theorem reinserted_cons_ss {env : CronEnv} {nowR : GoTime} {j : Job} {ps : List Job}
    (h : isSingleShot j = true) :
    reinserted env nowR (j :: ps) = reinserted env nowR ps := by
  unfold reinserted
  rw [List.filter_cons_of_neg (by simp [h])]

theorem reinserted_cons_per {env : CronEnv} {nowR : GoTime} {j : Job} {ps : List Job}
    (h : ¬ isSingleShot j = true) :
    reinserted env nowR (j :: ps) =
      { j with nextRun := calculateNextRun env nowR j.schedule } :: reinserted env nowR ps := by
  unfold reinserted
  have hb : isSingleShot j = false := by
    rcases Bool.eq_false_or_eq_true (isSingleShot j) with hb | hb
    · exact absurd hb h
    · exact hb
  rw [List.filter_cons_of_pos (by simp [hb])]
  rfl

theorem singleShotIds_cons_ss {j : Job} {ps : List Job} (h : isSingleShot j = true) :
    singleShotIds (j :: ps) = j.id :: singleShotIds ps := by
  unfold singleShotIds
  rw [List.filter_cons_of_pos h]
  rfl

theorem singleShotIds_cons_per {j : Job} {ps : List Job} (h : ¬ isSingleShot j = true) :
    singleShotIds (j :: ps) = singleShotIds ps := by
  unfold singleShotIds
  rw [List.filter_cons_of_neg h]

theorem after_false_iff {t now : GoTime} : t.after now = false ↔ t.unixMs ≤ now.unixMs := by
  unfold GoTime.after
  rw [decide_eq_false_iff_not]
  exact not_lt

theorem checkAndRunLoop_spec (env : CronEnv) (now nowR : GoTime)
    (Hclk : now.unixMs < nowR.unixMs) (Henv : CronEnvStrict env) :
    ∀ (fuel : Nat) (h : List Job) (jobs : List (String × Job)) (fired : List Job),
      IsMinHeap h → (∀ j, j ∈ h → EveryOk j) → dueCount now h < fuel →
      ∃ ps hf jf,
        checkAndRunLoop env now nowR fuel h jobs fired = some (hf, jf, fired ++ ps) ∧
        IsMinHeap hf ∧
        (∀ j, j ∈ hf → ¬ DueP now j) ∧
        (∀ j, j ∈ ps → DueP now j ∧ EveryOk j) ∧
        (hf ++ ps).Perm (h ++ reinserted env nowR ps) ∧
        jf = jobs.filter (fun p => !((singleShotIds ps).contains p.1)) := by
  intro fuel
  induction fuel with
  | zero =>
    intro h jobs fired _ _ hcnt
    omega
  | succ m ih =>
    intro h jobs fired hheap hev hcnt
    cases h with
    | nil =>
      refine ⟨[], [], jobs, ?_, ?_, ?_, ?_, ?_, ?_⟩
      · show some ([], jobs, fired) = some ([], jobs, fired ++ [])
        rw [List.append_nil]
      · intro p c _ hc
        exact absurd hc (by simp)
      · intro j hj
        exact absurd hj (List.not_mem_nil j)
      · intro j hj
        exact absurd hj (List.not_mem_nil j)
      · exact List.Perm.refl _
      · conv_lhs => rw [← List.filter_true jobs]
        apply List.filter_congr
        intro a _
        rfl
    | cons top rest =>
      rcases Bool.eq_false_or_eq_true (top.nextRun.after now) with hafter | hafter
      · -- the heap top is not due: the loop breaks at once, nothing is due
        refine ⟨[], top :: rest, jobs, ?_, hheap, ?_, ?_, ?_, ?_⟩
        · show (if top.nextRun.after now = true then _ else _) = _
          rw [if_pos hafter, List.append_nil]
        · intro j hj
          obtain ⟨k, hk, hkj⟩ := List.mem_iff_getElem.mp hj
          have hroot := heapRoot_min hheap k hk
          have h0 : nrAt (top :: rest) 0 = top.nextRun.unixMs := rfl
          have hkeq : nrAt (top :: rest) k = j.nextRun.unixMs := by
            unfold nrAt
            rw [getD_eq_getElem hk, hkj]
          rw [after_true_iff] at hafter
          unfold DueP
          omega
        · intro j hj
          exact absurd hj (List.not_mem_nil j)
        · exact List.Perm.refl _
        · conv_lhs => rw [← List.filter_true jobs]
          apply List.filter_congr
          intro a _
          rfl
      · -- the heap top is due: it is popped and fired
        have hdue : DueP now top := after_false_iff.mp hafter
        have hne : (top :: rest : List Job) ≠ [] := by simp
        obtain ⟨hpopperm, hpopheap, hpoplen⟩ := heapPopList_spec hne hheap
        have htopeq : (top :: rest : List Job).getD 0 default = top := rfl
        rw [htopeq] at hpopperm
        have hmem' : ∀ j, j ∈ heapPopList (top :: rest) → j ∈ (top :: rest : List Job) := by
          intro j hj
          exact hpopperm.mem_iff.mp (List.mem_cons_of_mem _ hj)
        have hev' : ∀ j, j ∈ heapPopList (top :: rest) → EveryOk j := by
          intro j hj
          exact hev j (hmem' j hj)
        have hrest : (heapPopList (top :: rest)).Perm rest := by
          exact (hpopperm.cons_inv)
        have hdc : dueCount now (top :: rest) = dueCount now (heapPopList (top :: rest)) + 1 := by
          rw [← dueCount_perm hpopperm, dueCount_cons_due hdue]
        rcases Bool.eq_false_or_eq_true (isSingleShot top) with hss | hss
        · -- single-shot: delete from the map
          obtain ⟨ps', hf, jf, heq, hfheap, hfnodue, hpsfacts, hperm, hjf⟩ :=
            ih (heapPopList (top :: rest)) (deleteJobKey jobs top.id) (fired ++ [top])
              hpopheap hev' (by omega)
          refine ⟨top :: ps', hf, jf, ?_, hfheap, hfnodue, ?_, ?_, ?_⟩
          · show (if top.nextRun.after now = true then _ else _) = _
            rw [if_neg (by rw [hafter]; exact Bool.false_ne_true)]
            dsimp only
            rw [if_pos hss, heq, List.append_assoc]
            rfl
          · intro j hj
            rcases List.mem_cons.mp hj with rfl | hj'
            · exact ⟨hdue, hev j (List.mem_cons_self _ _)⟩
            · exact hpsfacts j hj'
          · rw [reinserted_cons_ss hss]
            have e1 : (hf ++ top :: ps').Perm (top :: (hf ++ ps')) := List.perm_middle
            refine e1.trans ?_
            refine (List.Perm.cons top hperm).trans ?_
            show (top :: (heapPopList (top :: rest) ++ reinserted env nowR ps')).Perm _
            have e2 : (heapPopList (top :: rest) ++ reinserted env nowR ps').Perm
                (rest ++ reinserted env nowR ps') :=
              (List.perm_append_right_iff _).mpr hrest
            exact List.Perm.cons top e2
          · rw [hjf, singleShotIds_cons_ss hss]
            unfold deleteJobKey
            rw [List.filter_filter]
            apply List.filter_congr
            intro a _
            by_cases hai : a.1 = top.id
            · simp [hai]
            · simp [hai]
        · -- periodic: recompute the next run and push back
          have hkind : top.schedule.kind ≠ "at" := isSingleShot_false_parts (by rw [hss]; exact Bool.false_ne_true)
          have hevtop : EveryOk top := hev top (List.mem_cons_self _ _)
          have hnotdue' : ¬ DueP now ({ top with nextRun := calculateNextRun env nowR top.schedule } : Job) := by
            unfold DueP
            dsimp only
            have := recompute_after Hclk Henv hkind hevtop
            omega
          obtain ⟨hpushperm, hpushheap, hpushlen⟩ :=
            heapPush_spec (heapPopList (top :: rest))
              { top with nextRun := calculateNextRun env nowR top.schedule } hpopheap
          have hev'' : ∀ j, j ∈ heapPush (heapPopList (top :: rest))
              { top with nextRun := calculateNextRun env nowR top.schedule } → EveryOk j := by
            intro j hj
            rcases List.mem_cons.mp (hpushperm.mem_iff.mp hj) with rfl | hj'
            · intro hk
              exact hevtop hk
            · exact hev' j hj'
          have hdc2 : dueCount now (heapPush (heapPopList (top :: rest))
              { top with nextRun := calculateNextRun env nowR top.schedule })
              = dueCount now (heapPopList (top :: rest)) := by
            rw [dueCount_perm hpushperm, dueCount_cons_notdue hnotdue']
          obtain ⟨ps', hf, jf, heq, hfheap, hfnodue, hpsfacts, hperm, hjf⟩ :=
            ih (heapPush (heapPopList (top :: rest))
                { top with nextRun := calculateNextRun env nowR top.schedule })
              jobs (fired ++ [top]) hpushheap hev'' (by omega)
          refine ⟨top :: ps', hf, jf, ?_, hfheap, hfnodue, ?_, ?_, ?_⟩
          · show (if top.nextRun.after now = true then _ else _) = _
            rw [if_neg (by rw [hafter]; exact Bool.false_ne_true)]
            dsimp only
            rw [if_neg (by rw [hss]; exact Bool.false_ne_true), heq, List.append_assoc]
            rfl
          · intro j hj
            rcases List.mem_cons.mp hj with rfl | hj'
            · exact ⟨hdue, hevtop⟩
            · exact hpsfacts j hj'
          · rw [reinserted_cons_per (by rw [hss]; exact Bool.false_ne_true)]
            have e1 : (hf ++ top :: ps').Perm (top :: (hf ++ ps')) := List.perm_middle
            refine e1.trans ?_
            refine (List.Perm.cons top hperm).trans ?_
            have e2 : (heapPush (heapPopList (top :: rest))
                { top with nextRun := calculateNextRun env nowR top.schedule }
                ++ reinserted env nowR ps').Perm
                (({ top with nextRun := calculateNextRun env nowR top.schedule } :: rest)
                  ++ reinserted env nowR ps') := by
              refine (List.perm_append_right_iff _).mpr ?_
              exact hpushperm.trans (List.Perm.cons _ hrest)
            refine (List.Perm.cons top e2).trans ?_
            show (top :: ({ top with nextRun := calculateNextRun env nowR top.schedule } :: rest
                ++ reinserted env nowR ps')).Perm
              (top :: rest ++ { top with nextRun := calculateNextRun env nowR top.schedule }
                :: reinserted env nowR ps')
            exact List.Perm.cons top List.perm_middle.symm
          · rw [hjf, singleShotIds_cons_per (by rw [hss]; exact Bool.false_ne_true)]

theorem mem_reinserted {env : CronEnv} {nowR : GoTime} {ps : List Job} {x : Job}
    (hx : x ∈ reinserted env nowR ps) :
    ∃ p, p ∈ ps ∧ isSingleShot p = false ∧
      x = { p with nextRun := calculateNextRun env nowR p.schedule } := by
  unfold reinserted at hx
  rcases List.mem_map.mp hx with ⟨p, hp, rfl⟩
  rcases List.mem_filter.mp hp with ⟨hp1, hp2⟩
  refine ⟨p, hp1, ?_, rfl⟩
  rcases Bool.eq_false_or_eq_true (isSingleShot p) with hb | hb
  · rw [hb] at hp2
    exact absurd hp2 (by decide)
  · exact hb

theorem reinserted_not_due {env : CronEnv} {now nowR : GoTime} {ps : List Job} {x : Job}
    (Hclk : now.unixMs < nowR.unixMs) (Henv : CronEnvStrict env)
    (hev : ∀ p, p ∈ ps → EveryOk p)
    (hx : x ∈ reinserted env nowR ps) : ¬ DueP now x := by
  rcases mem_reinserted hx with ⟨p, hp, hss, rfl⟩
  have hkind : p.schedule.kind ≠ "at" :=
    isSingleShot_false_parts (by rw [hss]; exact Bool.false_ne_true)
  have hlt := recompute_after Hclk Henv hkind (hev p hp)
  unfold DueP
  dsimp only
  omega

theorem mem_of_count_eq_one {l : List Job} {j : Job} (h : l.count j = 1) : j ∈ l := by
  by_contra hc
  have h0 := List.count_eq_zero.mpr hc
  omega

/-- C5: at a scheduler wake (`now` the wake instant, `nowR` the strictly later
wall clock observed when recomputing next runs), on a well-formed scheduler
state — a min-heap of jobs with non-negative `every` intervals — `checkAndRun`
terminates, and any due job `j` occurring once in the heap is fired exactly
once and leaves the heap; when its schedule kind is `"at"` every entry keyed by
its id is also deleted from the by-id map regardless of the delete-after-run
flag, and when its kind is not `"at"` and delete-after-run is unset it is
re-inserted into the heap with a next run recomputed from the wall clock. -/
theorem C5_due_jobs_fire (env : CronEnv) (now nowR : GoTime)
    (h : List Job) (jobs : List (String × Job)) (j : Job)
    (Hclk : now.unixMs < nowR.unixMs) (Henv : CronEnvStrict env)
    (hheap : IsMinHeap h) (hev : ∀ x, x ∈ h → EveryOk x)
    (hone : h.count j = 1) (hdue : DueP now j) :
    ∃ hf jf fired, checkAndRun env now nowR h jobs = some (hf, jf, fired) ∧
      fired.count j = 1 ∧
      j ∉ hf ∧
      (j.schedule.kind = "at" → ∀ p, p ∈ jf → p.1 ≠ j.id) ∧
      (j.schedule.kind ≠ "at" → j.deleteAfterRun = false →
        { j with nextRun := calculateNextRun env nowR j.schedule } ∈ hf) := by
  have hfuel : dueCount now h < h.length + 1 :=
    Nat.lt_succ_of_le (List.length_filter_le _ _)
  obtain ⟨ps, hf, jf, heq, hfheap, hfnodue, hpsfacts, hperm, hjf⟩ :=
    checkAndRunLoop_spec env now nowR Hclk Henv (h.length + 1) h jobs [] hheap hev hfuel
  rw [List.nil_append] at heq
  have hjmem : j ∈ h := mem_of_count_eq_one hone
  have hjnf : j ∉ hf := fun hc => hfnodue j hc hdue
  have hjnr : j ∉ reinserted env nowR ps :=
    fun hc => reinserted_not_due Hclk Henv (fun p hp => (hpsfacts p hp).2) hc hdue
  have hcnt := hperm.count_eq j
  rw [List.count_append, List.count_append, List.count_eq_zero.mpr hjnf,
    List.count_eq_zero.mpr hjnr] at hcnt
  have hcount : ps.count j = 1 := by omega
  have hjps : j ∈ ps := mem_of_count_eq_one hcount
  refine ⟨hf, jf, ps, heq, hcount, hjnf, ?_, ?_⟩
  · intro hkind p hp
    have hss : isSingleShot j = true := by
      unfold isSingleShot
      rw [hkind]
      simp
    have hid : j.id ∈ singleShotIds ps := by
      unfold singleShotIds
      exact List.mem_map.mpr ⟨j, List.mem_filter.mpr ⟨hjps, hss⟩, rfl⟩
    rw [hjf] at hp
    rcases List.mem_filter.mp hp with ⟨hp1, hp2⟩
    intro heqid
    rw [heqid] at hp2
    simp at hp2
    exact hp2 hid
  · intro hkind hdel
    have hss : isSingleShot j = false := by
      unfold isSingleShot
      rw [hdel]
      simp [hkind]
    have hmemr : { j with nextRun := calculateNextRun env nowR j.schedule } ∈
        reinserted env nowR ps := by
      unfold reinserted
      exact List.mem_map.mpr ⟨j, List.mem_filter.mpr ⟨hjps, by rw [hss]; rfl⟩, rfl⟩
    have hmem2 : { j with nextRun := calculateNextRun env nowR j.schedule } ∈ hf ++ ps :=
      hperm.mem_iff.mpr (List.mem_append.mpr (Or.inr hmemr))
    rcases List.mem_append.mp hmem2 with hin | hin
    · exact hin
    · exfalso
      have hdue2 := (hpsfacts _ hin).1
      exact reinserted_not_due Hclk Henv (fun p hp => (hpsfacts p hp).2) hmemr hdue2

/-- Witness for C5 at a concrete due single-shot job. -/
theorem C5_due_jobs_fire_witness :
    ∃ hf jf fired,
      checkAndRun cronEnvW { unixMs := 2000 } { unixMs := 2001 } [jobAtW]
        [("job_1", jobAtW)] = some (hf, jf, fired) ∧
      fired.count jobAtW = 1 ∧
      jobAtW ∉ hf ∧
      (jobAtW.schedule.kind = "at" → ∀ p, p ∈ jf → p.1 ≠ jobAtW.id) ∧
      (jobAtW.schedule.kind ≠ "at" → jobAtW.deleteAfterRun = false →
        { jobAtW with nextRun := calculateNextRun cronEnvW { unixMs := 2001 } jobAtW.schedule }
          ∈ hf) :=
  C5_due_jobs_fire cronEnvW { unixMs := 2000 } { unixMs := 2001 } [jobAtW]
    [("job_1", jobAtW)] jobAtW
    (by decide)
    (by intro s u; show u.unixMs < u.unixMs + 60000; omega)
    (by intro i c hic hc
        simp only [List.length_singleton] at hc
        rcases hic with rfl | rfl <;> omega)
    (by intro x hx
        rw [List.mem_singleton] at hx
        subst hx
        intro hk
        exact absurd hk (by decide))
    (by simp)
    (by unfold DueP; decide)

/-- C7: `calculateCronNextRun` falls back to `now + 1h` when the 5-field parse
fails; when parsing succeeds it computes the next run in the requested timezone
when one is given and loads, otherwise in the local zone.  A due cron job whose
expression fails to parse is not dropped: `checkAndRun` re-inserts it into the
heap with the recomputed next run and leaves the by-id map unchanged. -/
theorem C7_cron_parse_fallback (env : CronEnv) (s : Schedule) (now nowR : GoTime)
    (j : Job) (jobs : List (String × Job))
    (Hclk : now.unixMs < nowR.unixMs) (Henv : CronEnvStrict env) :
    (env.parse s.cronExpr = none → calculateCronNextRun env s now = now.addMs 3600000) ∧
    (∀ sched loc, env.parse s.cronExpr = some sched → s.tz ≠ "" →
      env.loadLocation s.tz = some loc →
      calculateCronNextRun env s now = env.next sched (now.inLoc loc)) ∧
    (∀ sched, env.parse s.cronExpr = some sched →
      (s.tz = "" ∨ env.loadLocation s.tz = none) →
      calculateCronNextRun env s now = env.next sched now) ∧
    (j.schedule.kind = "cron" → j.deleteAfterRun = false → DueP now j →
      checkAndRun env now nowR [j] jobs =
        some ([{ j with nextRun := calculateCronNextRun env j.schedule nowR }], jobs, [j])) := by
  refine ⟨?_, ?_, ?_, ?_⟩
  · intro hp
    unfold calculateCronNextRun
    rw [hp]
  · intro sched loc hp htz hl
    unfold calculateCronNextRun
    rw [hp]
    dsimp only
    rw [if_pos htz, hl]
  · intro sched hp hcase
    unfold calculateCronNextRun
    rw [hp]
    dsimp only
    rcases hcase with htz | hl
    · rw [if_neg (by rw [htz]; exact fun hc => hc rfl)]
    · by_cases htz : s.tz = ""
      · rw [if_neg (by rw [htz]; exact fun hc => hc rfl)]
      · rw [if_pos htz, hl]
  · intro hkind hdel hdue
    have hafter : j.nextRun.after now = false := after_false_iff.mpr hdue
    have hss : isSingleShot j = false := by
      unfold isSingleShot
      rw [hdel, hkind]
      decide
    have hcalc : calculateNextRun env nowR j.schedule = calculateCronNextRun env j.schedule nowR := by
      unfold calculateNextRun
      rw [hkind]
      rw [if_neg (by decide), if_neg (by decide), if_pos rfl]
    have hevj : EveryOk j := by
      intro hk
      rw [hkind] at hk
      exact absurd hk (by decide)
    have hafter2 :
        ({ j with nextRun := calculateNextRun env nowR j.schedule } : Job).nextRun.after now
          = true := by
      rw [after_true_iff]
      exact recompute_after Hclk Henv (by rw [hkind]; decide) hevj
    show (if j.nextRun.after now = true then some ([j], jobs, []) else
        if isSingleShot j = true then
          checkAndRunLoop env now nowR (0 + 1) (heapPopList [j]) (deleteJobKey jobs j.id) [j]
        else
          checkAndRunLoop env now nowR (0 + 1)
            (heapPush (heapPopList [j]) { j with nextRun := calculateNextRun env nowR j.schedule })
            jobs [j]) = _
    rw [if_neg (by rw [hafter]; exact Bool.false_ne_true),
      if_neg (by rw [hss]; exact Bool.false_ne_true)]
    have hpop : heapPopList [j] = [] := rfl
    rw [hpop]
    have hpush : heapPush [] { j with nextRun := calculateNextRun env nowR j.schedule } =
        [{ j with nextRun := calculateNextRun env nowR j.schedule }] := rfl
    rw [hpush]
    show (if ({ j with nextRun := calculateNextRun env nowR j.schedule } : Job).nextRun.after now
          = true
        then some ([({ j with nextRun := calculateNextRun env nowR j.schedule } : Job)], jobs, [j])
        else _) = _
    rw [if_pos hafter2, hcalc]

/-- Witness for C7 at a concrete cron job whose expression fails to parse. -/
theorem C7_cron_parse_fallback_witness :
    calculateCronNextRun cronEnvW jobCronW.schedule { unixMs := 900 } =
      GoTime.addMs { unixMs := 900 } 3600000 ∧
    checkAndRun cronEnvW { unixMs := 900 } { unixMs := 901 } [jobCronW] [("job_3", jobCronW)] =
      some ([{ jobCronW with
          nextRun := calculateCronNextRun cronEnvW jobCronW.schedule { unixMs := 901 } }],
        [("job_3", jobCronW)], [jobCronW]) := by
  have t := C7_cron_parse_fallback cronEnvW jobCronW.schedule { unixMs := 900 } { unixMs := 901 }
    jobCronW [("job_3", jobCronW)] (by decide)
    (by intro s u; show u.unixMs < u.unixMs + 60000; omega)
  exact ⟨t.1 (by decide), t.2.2.2 rfl rfl (by unfold DueP; decide)⟩
